import Mathlib

/-!
Shallow embedding of forklift's core synchronization engine
(src/forklift/core.py) together with the pieces of the data model
(models.Changes, models.Crate status constants, exceptions.ValidationException)
that are not part of the provided sources and are therefore modelled from the
specification.

Conventions of the embedding:
* `arcpy` datasets are modelled as Lean lists of records; the destination
  dataset and the per-crate hash-index table live in a `World` record.
* md5 digests (`_create_hash`) are modelled as the pair of the two strings
  fed to the hasher (content, salt); md5 is treated as collision free, so the
  pair itself is the canonical digest value.
* Python dicts are association lists with overwrite-on-insert semantics.
* Exceptions are `Except String`; the caught-and-converted control flow of
  `update` is mirrored explicitly.
-/

namespace Forklift

/-- An md5 digest as produced by `_create_hash`: the digest of
`string + str(salt)`.  Modelled as the pair of the inputs, treating md5 as
collision free. -/
abbrev Digest := String × Nat

/-- `_create_hash(string, salt)` from core.py: `md5(string)` then
`update(str(salt))`, returning the hex digest.  In the embedding the digest is
the (collision-free) pair of the two inputs. -/
def createHash (string : String) (salt : Nat) : Digest := (string, salt)

/-- Structural substring search on character lists. -/
def containsSub (pat : List Char) : List Char → Bool
  | [] => pat.isEmpty
  | c :: t => pat.isPrefixOf (c :: t) || containsSub pat t

/-- `'pat' in s` for Python strings: substring containment. -/
def strContains (s pat : String) : Bool := containsSub pat.data s.data

/-- Python `s.upper()`. -/
def toUpperStr (s : String) : String := String.mk (s.data.map Char.toUpper)

/-- Python `s.startswith(pat)`. -/
def strStartsWith (s pat : String) : Bool := pat.data.isPrefixOf s.data

/-- Python `s.endswith(pat)`. -/
def strEndsWith (s pat : String) : Bool := pat.data.isSuffixOf s.data

/-- One record of the source dataset as read by the `_hash` search cursor:
`attrs` is the Python string `str(row[:primary_key_index])` (the stringified
non-key, non-geometry field values), `pk` is the stringified primary-key value
`str(row[primary_key_index])`, and `wkt` is the `SHAPE@WKT` token
(`none` = null geometry; ignored for tabular crates). -/
structure SrcRow where
  attrs : String
  pk : String
  wkt : Option String
deriving DecidableEq, Repr

/-- A field as returned by `arcpy.ListFields`: name, type and length. -/
structure Field where
  name : String
  ftype : String
  length : Nat
deriving DecidableEq, Repr

/-- The parts of `models.Crate` that core.py reads.  `is_table()` and
`needs_reproject()` are boolean accessors on the crate (modelled from the
spec: the dataset-pair configuration exposes a tabular/geometry flag and a
reprojection requirement).  `projectWkt` abstracts the geometric effect of
`arcpy.Project_management` on a single well-known-text value. -/
structure Crate where
  name : String
  sourceName : String
  sourceRows : List SrcRow
  sourceFields : List Field
  isTable : Bool
  needsReproject : Bool
  sourceIsShapefile : Bool
  destinationWorkspace : String
  sourcePrimaryKey : String
  projectWkt : String → String

/-- One destination record: the destination-assigned identifier (`oid`,
returned by `InsertCursor.insertRow`), the primary-key value and the data
content. -/
structure DestRow where
  oid : Nat
  pk : String
  attrs : String
  wkt : Option String
deriving DecidableEq, Repr

/-- One row of the per-crate hash-index table: `Id` (TEXT, the stringified
destination oid), `att_hash` and `geom_hash`. -/
structure HashRow where
  id : String
  att : Option Digest
  geom : Option Digest
deriving DecidableEq, Repr

/-- The mutable external state touched by `update`: the destination dataset,
its workspace, the per-crate hash-index table (`none` = table does not exist)
and the warnings log.  `nextOid` is the destination's oid counter. -/
structure World where
  destExists : Bool
  destWorkspaceExists : Bool
  destRows : List DestRow
  destFields : List Field
  hashTable : Option (List HashRow)
  nextOid : Nat
  warnings : List String
deriving DecidableEq, Repr

/-! ### Python-dict association lists -/

/-- Membership test `k in d` for a Python dict modelled as an assoc list. -/
def dictMem {α β : Type} [DecidableEq α] (k : α) (m : List (α × β)) : Bool :=
  m.any (fun p => decide (p.1 = k))

/-- `d[k] = v` for a Python dict: overwrite any entry with the same key. -/
def dictInsert {α β : Type} [DecidableEq α] (m : List (α × β)) (k : α) (v : β) :
    List (α × β) :=
  m.filter (fun p => !decide (p.1 = k)) ++ [(k, v)]

/-- `d.pop(k)` (value discarded): remove the entry with key `k`. -/
def dictPop {α β : Type} [DecidableEq α] (m : List (α × β)) (k : α) :
    List (α × β) :=
  m.filter (fun p => !decide (p.1 = k))

/-- `d[k]` as an option. -/
def dictLookup {α β : Type} [DecidableEq α] (m : List (α × β)) (k : α) :
    Option β :=
  (m.find? (fun p => decide (p.1 = k))).map (·.2)

/-- `d.values()`. -/
def dictValues {α β : Type} (m : List (α × β)) : List β := m.map (·.2)

/-! ### Field filtering and schema checking -/

/-- `_is_naughty_field` from core.py. -/
def isNaughtyField (fld : String) : Bool :=
  strContains (toUpperStr fld) "SHAPE" ||
    (toUpperStr fld = "GLOBAL_ID" || toUpperStr fld = "GLOBALID") ||
    strStartsWith fld "OBJECTID_"

/-- `get_fields` inside `check_schema`: build the upper-cased name → field
dict, skipping managed fields. -/
def getFields (fields : List Field) : List (String × Field) :=
  fields.foldl
    (fun m f =>
      if !isNaughtyField f.name && !(f.name = "OBJECTID" || f.name = "FID") then
        dictInsert m (toUpperStr f.name) f
      else m)
    []

/-- `abstract_type` inside `check_schema`. -/
def abstractType (t : String) : String :=
  if t = "Double" || t = "Integer" || t = "Single" || t = "SmallInteger" then
    "Numeric"
  else t

/-- `truncate_field_length` inside `check_schema`. -/
def truncateFieldLength (n : Nat) : Nat := if n > 4000 then 4000 else n

/-- The two lists collected by `check_schema`'s loop over the destination
fields: missing field names and mismatching-field descriptions, in loop
order. -/
def checkSchemaCollect (sourceFields destinationFields : List (String × Field)) :
    List String × List String :=
  destinationFields.foldl
    (fun (acc : List String × List String) p =>
      let destinationFld := p.2
      match dictLookup sourceFields p.1 with
      | none => (acc.1 ++ [destinationFld.name], acc.2)
      | some sourceFld =>
        if abstractType sourceFld.ftype ≠ abstractType destinationFld.ftype then
          (acc.1,
            acc.2 ++ [sourceFld.name ++ ": source type of " ++ sourceFld.ftype ++
              " does not match destination type of " ++ destinationFld.ftype])
        else if sourceFld.ftype = "String" &&
            truncateFieldLength sourceFld.length ≠
              truncateFieldLength destinationFld.length then
          (acc.1,
            acc.2 ++ [sourceFld.name ++ ": source length of " ++
              toString (truncateFieldLength sourceFld.length) ++
              " does not match destination length of " ++
              toString (truncateFieldLength destinationFld.length)])
        else acc)
    ([], [])

/-- `check_schema(crate)` from core.py.  A raised `ValidationException`
(exceptions.py is not among the sources; modelled from the spec as carrying
the message string) is an `Except.error`. -/
def check_schema (c : Crate) (w : World) : Except String Bool :=
  let ls := checkSchemaCollect (getFields c.sourceFields) (getFields w.destFields)
  if ls.1 ≠ [] then
    .error ("Missing fields in " ++ c.sourceName ++ ": " ++
      String.intercalate ", " ls.1)
  else if ls.2 ≠ [] then
    .error ("Mismatching fields in " ++ c.sourceName ++ ": " ++
      String.intercalate ", " ls.2)
  else .ok true

/-- Outcome of `validate_crate` (models.Pallet.validate_crate, not among the
sources; modelled from the spec: a custom validator either succeeds, raises a
`ValidationException`, or returns the `NotImplemented` sentinel to request the
default `check_schema`). -/
inductive ValidationResult where
  | notImplemented
  | ok
  | invalid (msg : String)

/-- The validation block of `update`: run the custom validator; on the
`NotImplemented` sentinel fall back to `check_schema`. -/
def runValidation (v : ValidationResult) (c : Crate) (w : World) :
    Except String Bool :=
  match v with
  | .notImplemented => check_schema c w
  | .ok => .ok true
  | .invalid m => .error m

/-! ### The change-set builder `_hash` -/

/-- The loop state of `_hash`'s cursor pass: the two reverse lookups
(digest → stringified id), the `adds` and `unchanged` dicts of the `Changes`
model, the running totals and the rows written to the reprojection temp
table. -/
structure HashState where
  attL : List (Digest × String)
  geomL : List (Digest × String)
  adds : List (String × (Digest × Option Digest))
  unchanged : List (String × (Digest × Option Digest))
  totalRows : Nat
  salt : Nat
  inserted : List SrcRow
  warnings : List String
deriving DecidableEq, Repr

/-- One iteration of `_hash`'s cursor loop (core.py lines 257–291). -/
def hashStep (isTable needsReproject : Bool) (pkName : String)
    (s : HashState) (r : SrcRow) : HashState :=
  let total := s.totalRows + 1
  let salty := s.salt + 1
  if !isTable && r.wkt.isNone then
    { s with
      totalRows := total - 1
      salt := salty
      warnings := s.warnings ++
        ["Empty geometry found in " ++ pkName ++ ": " ++ r.pk] }
  else
    let geomHashDigest : Option Digest :=
      if isTable then none else r.wkt.map (fun x => createHash x salty)
    let attributeHashDigest := createHash r.attrs salty
    let geomMissing : Bool :=
      match geomHashDigest with
      | some g => !dictMem g s.geomL
      | none => false
    if !dictMem attributeHashDigest s.attL || geomMissing then
      { s with
        totalRows := total
        salt := salty
        inserted := if needsReproject then s.inserted ++ [r] else s.inserted
        adds := dictInsert s.adds r.pk (attributeHashDigest, geomHashDigest) }
    else
      { s with
        totalRows := total
        salt := salty
        attL := dictPop s.attL attributeHashDigest
        geomL :=
          match geomHashDigest with
          | some g => dictPop s.geomL g
          | none => s.geomL
        unchanged := dictInsert s.unchanged r.pk (attributeHashDigest, geomHashDigest) }

/-- The cursor loop of `_hash` over the ordered source rows. -/
def hashLoop (isTable needsReproject : Bool) (pkName : String) :
    HashState → List SrcRow → HashState
  | s, [] => s
  | s, r :: rest => hashLoop isTable needsReproject pkName
      (hashStep isTable needsReproject pkName s r) rest

/-- One row of `_get_hash_lookups`' cursor pass. -/
def lookupStep (ls : List (Digest × String) × List (Digest × String))
    (r : HashRow) : List (Digest × String) × List (Digest × String) :=
  let l1 := match r.att with
    | some a => dictInsert ls.1 a r.id
    | none => ls.1
  let l2 := match r.geom with
    | some g => dictInsert ls.2 g r.id
    | none => ls.2
  (l1, l2)

/-- `_get_hash_lookups`: build the attribute and geometry reverse lookups from
the hash-index table. -/
def getHashLookups (rows : List HashRow) :
    List (Digest × String) × List (Digest × String) :=
  rows.foldl lookupStep ([], [])

/-- The `models.Changes` data relevant to core.py (models.py is not among the
sources; modelled from the spec: three mappings keyed by primary-key value —
adds, unchanged, and a deletes set of identifiers left in the reverse lookups
— plus the total-row counter and the record stream used for insertion). -/
structure Changes where
  adds : List (String × (Digest × Option Digest))
  unchanged : List (String × (Digest × Option Digest))
  deletes : List String
  totalRows : Nat
  tableRows : List SrcRow
  tableIsTemp : Bool
deriving Repr

/-- `_hash(crate, hash_path, needs_reproject)` from core.py: create the
hash-index table and truncate the destination when the table is missing,
build the reverse lookups, stream the ordered source once, and derive the
deletes from whatever remains in the lookups (`Changes.determine_deletes`,
modelled from the spec: "whatever identifiers remain in either reverse lookup
are deletes"). -/
def hashRun (c : Crate) (w : World) : Changes × World :=
  let w1 := if w.hashTable.isNone then
      { w with hashTable := some [], destRows := [] }
    else w
  let ls := getHashLookups (w1.hashTable.getD [])
  let s0 : HashState := ⟨ls.1, ls.2, [], [], 0, 0, [], []⟩
  let s := hashLoop c.isTable c.needsReproject c.sourcePrimaryKey s0 c.sourceRows
  (⟨s.adds, s.unchanged, dictValues s.attL ++ dictValues s.geomL, s.totalRows,
      if c.needsReproject then s.inserted else c.sourceRows,
      c.needsReproject⟩,
    { w1 with warnings := w1.warnings ++ s.warnings })

/-! ### Destination creation -/

/-- The dataset-creation tail of `_create_destination_data`: copy the source
schema (plus an FID field for shapefile feature classes) into a fresh, empty
destination. -/
def createDataset (c : Crate) (w : World) : World :=
  let flds := c.sourceFields ++
    (if !c.isTable && c.sourceIsShapefile then [⟨"FID", "Integer", 4⟩] else [])
  { w with destExists := true, destRows := [], destFields := flds }

/-- `_create_destination_data(crate)` from core.py: create the destination
workspace when missing (only file geodatabases can be created; otherwise an
exception is raised), then create the destination dataset from the source
template. -/
def createDestinationData (c : Crate) (w : World) : Except String World :=
  if !w.destWorkspaceExists then
    if strEndsWith c.destinationWorkspace ".gdb" then
      .ok (createDataset c { w with destWorkspaceExists := true })
    else
      .error ("destination_workspace does not exist! " ++ c.destinationWorkspace)
  else
    .ok (createDataset c w)

/-! ### The apply phases of `update` -/

/-- Whether a value is in the delete set: the where clause
`Changes.get_deletes_where_clause` (models.py, modelled from the spec: the
clause selects the rows whose given field value is one of the identifiers in
the deletes set). -/
def inDeletes (deletes : List String) (v : String) : Bool :=
  deletes.any (fun d => decide (d = v))

/-- The delete phase of `update` (core.py lines 96–118): delete the
destination rows whose primary-key value is in the delete set, then the
hash-index rows whose `Id` is in the delete set. -/
def deletePhase (deletes : List String) (w : World) : World :=
  { w with
    destRows := w.destRows.filter (fun r => !inDeletes deletes r.pk),
    hashTable := some ((w.hashTable.getD []).filter
      (fun hr => !inDeletes deletes hr.id)) }

/-- The digest pair stored for an inserted row: `changes.adds[str(pk)]` with
the `KeyError` fallback to `changes.unchanged[str(pk)]`; a second `KeyError`
propagates. -/
def addRowDigests (changes : Changes) (pk : String) :
    Except String (Digest × Option Digest) :=
  match dictLookup changes.adds pk with
  | some dg => .ok dg
  | none =>
    match dictLookup changes.unchanged pk with
    | some dg => .ok dg
    | none => .error ("KeyError: " ++ pk)

/-- One iteration of the add-phase cursor loop (core.py lines 155–168): skip
null geometries again, insert the destination row (obtaining a fresh oid) and
the hash-index row. -/
def addStep (c : Crate) (changes : Changes) (w : World) (r : SrcRow) :
    Except String World :=
  if !c.isTable && r.wkt.isNone then .ok w
  else
    match addRowDigests changes r.pk with
    | .error e => .error e
    | .ok dg =>
      let wkt := if c.needsReproject then r.wkt.map c.projectWkt else r.wkt
      .ok { w with
        destRows := w.destRows ++ [⟨w.nextOid, r.pk, r.attrs, wkt⟩],
        nextOid := w.nextOid + 1,
        hashTable := some ((w.hashTable.getD []) ++
          [⟨toString w.nextOid, some dg.1, dg.2⟩]) }

/-- The add-phase cursor loop. -/
def addLoop (c : Crate) (changes : Changes) :
    World → List SrcRow → Except String World
  | w, [] => .ok w
  | w, r :: rest =>
    match addStep c changes w r with
    | .ok w2 => addLoop c changes w2 rest
    | .error e => .error e

/-- The add phase of `update` (core.py lines 121–177): reproject the temp
table when needed, read the change table filtered to the add keys
(`Changes.get_adds_where_clause`, modelled from the spec: the insertion
stream is filtered to just the add keys) and insert each row into the
destination and the hash-index table. -/
def addPhase (c : Crate) (changes : Changes) (w : World) : Except String World :=
  let rows := changes.tableRows.filter (fun r => dictMem r.pk changes.adds)
  addLoop c changes w rows

/-! ### The synchronizer `update` -/

/-- The result-status constants of `models.Crate` (models.py is not among the
sources; the status taxonomy is modelled from the spec). -/
inductive CrateStatus where
  | NO_CHANGES
  | CREATED
  | UPDATED
  | INVALID_DATA
  | UNHANDLED_EXCEPTION
deriving DecidableEq, Repr

/-- The destination-creation prologue of `update` (core.py lines 69–77):
create the destination when missing and drop any stale hash-index table for
this identity, setting the status to CREATED. -/
def postCreation (c : Crate) (w : World) : Except String (CrateStatus × World) :=
  if !w.destExists then
    match createDestinationData c w with
    | .error m => .error m
    | .ok w2 => .ok (CrateStatus.CREATED, { w2 with hashTable := none })
  else .ok (CrateStatus.NO_CHANGES, w)

/-- `if status != Crate.CREATED: change_status = (Crate.UPDATED, None)`. -/
def bumpStatus (st : CrateStatus) : CrateStatus :=
  if st ≠ CrateStatus.CREATED then CrateStatus.UPDATED else st

/-- The two apply phases of `update` (core.py lines 96–177): the delete phase
when the change set has deletes, then the add phase when it has adds. -/
def applyChanges (c : Crate) (status0 : CrateStatus) (changes : Changes)
    (w : World) : Except String ((CrateStatus × Option String) × World) :=
  let p := if changes.deletes.isEmpty then (status0, w)
    else (bumpStatus status0, deletePhase changes.deletes w)
  if changes.adds.isEmpty then .ok ((p.1, none), p.2)
  else
    match addPhase c changes p.2 with
    | .error m => .error m
    | .ok w2 => .ok ((bumpStatus p.1, none), w2)

/-- The body of `update(crate, validate_crate)` (core.py lines 68–179): the
uncaught-exception path is the `Except.error` case. -/
def updateBody (c : Crate) (v : ValidationResult) (w : World) :
    Except String ((CrateStatus × Option String) × World) :=
  match postCreation c w with
  | .error m => .error m
  | .ok sw =>
    match runValidation v c sw.2 with
    | .error m => .ok ((CrateStatus.INVALID_DATA, some m), sw.2)
    | .ok _ =>
      let cw := hashRun c sw.2
      applyChanges c sw.1 cw.1 cw.2

/-- `update(crate, validate_crate)` from core.py: any exception escaping the
body is caught at the top and converted to `(UNHANDLED_EXCEPTION, message)`.
In the pure embedding the only raising sites before any mutation are modelled,
so the world returned on the error path is the input world. -/
def update (c : Crate) (v : ValidationResult) (w : World) :
    (CrateStatus × Option String) × World :=
  match updateBody c v w with
  | .ok r => r
  | .error m => ((CrateStatus.UNHANDLED_EXCEPTION, some m), w)

/-! ### Basic lemmas about the dict model and the loops -/

theorem dictMem_iff {α β : Type} [DecidableEq α] (k : α) (m : List (α × β)) :
    dictMem k m = true ↔ ∃ v, (k, v) ∈ m := by
  simp only [dictMem, List.any_eq_true, decide_eq_true_eq]
  constructor
  · rintro ⟨⟨a, b⟩, hm, he⟩
    exact ⟨b, he ▸ hm⟩
  · rintro ⟨v, hv⟩
    exact ⟨(k, v), hv, rfl⟩

theorem dictLookup_insert_self {α β : Type} [DecidableEq α]
    (m : List (α × β)) (k : α) (v : β) :
    dictLookup (dictInsert m k v) k = some v := by
  unfold dictLookup dictInsert
  induction m with
  | nil => simp
  | cons p rest ih =>
    by_cases h : p.1 = k
    · simpa [h] using ih
    · simpa [h] using ih

theorem hashStep_salt (it rp : Bool) (pk : String) (s : HashState) (r : SrcRow) :
    (hashStep it rp pk s r).salt = s.salt + 1 := by
  unfold hashStep
  split
  · rfl
  · dsimp only
    rw [apply_ite HashState.salt]
    simp

theorem hashLoop_append (it rp : Bool) (pk : String) (s : HashState)
    (l1 l2 : List SrcRow) :
    hashLoop it rp pk s (l1 ++ l2) = hashLoop it rp pk (hashLoop it rp pk s l1) l2 := by
  induction l1 generalizing s with
  | nil => rfl
  | cons r rest ih => simp [hashLoop, ih]

theorem hashLoop_salt (it rp : Bool) (pk : String) (s : HashState)
    (l : List SrcRow) :
    (hashLoop it rp pk s l).salt = s.salt + l.length := by
  induction l generalizing s with
  | nil => rfl
  | cons r rest ih =>
    rw [hashLoop, ih, hashStep_salt, List.length_cons]
    omega

/-- The state of `_hash`'s cursor loop after the first `i` source rows. -/
def hashPrefix (it rp : Bool) (pk : String) (s0 : HashState)
    (rs : List SrcRow) (i : Nat) : HashState :=
  hashLoop it rp pk s0 (rs.take i)

theorem hashPrefix_succ (it rp : Bool) (pk : String) (s0 : HashState)
    (rs : List SrcRow) (i : Nat) (hi : i < rs.length) :
    hashPrefix it rp pk s0 rs (i + 1) =
      hashStep it rp pk (hashPrefix it rp pk s0 rs i) (rs.get ⟨i, hi⟩) := by
  unfold hashPrefix
  rw [← List.take_concat_get rs i hi, List.concat_eq_append, hashLoop_append]
  rfl

/-! ### Sample inputs used by witnesses -/

/-- An empty hash-loop state (the state `_hash` starts its cursor pass with,
for empty reverse lookups). -/
def emptyState : HashState := ⟨[], [], [], [], 0, 0, [], []⟩

/-- A sample geometry-bearing source row. -/
def rowW : SrcRow := ⟨"a", "P", some "w"⟩

/-- A sample source row with a null geometry. -/
def rowNull : SrcRow := ⟨"a", "P", none⟩

/-- A sample geometry-bearing crate with one source row. -/
def crateGeo : Crate :=
  ⟨"c", "src", [rowW], [⟨"A", "String", 10⟩], false, false, false, "d.gdb", "ID", id⟩

/-- A sample world with an existing destination holding one row and no
hash-index table. -/
def worldNoTable : World :=
  ⟨true, true, [⟨1, "A", "x", none⟩], [⟨"A", "String", 10⟩], none, 2, []⟩

/-- An empty change set. -/
def changesEmpty : Changes := ⟨[], [], [], 0, [], false⟩

/-! ### C10: a missing hash index forces a destination truncation -/

/-- C10: whenever the hash-index table for a crate does not exist at the start
of change computation, `_hash` creates the (empty) table and truncates the
destination dataset, deleting every existing destination row before any record
is classified. -/
theorem missing_hash_table_truncates_destination (c : Crate) (w : World)
    (h : w.hashTable = none) :
    (hashRun c w).2.hashTable = some [] ∧ (hashRun c w).2.destRows = [] := by
  constructor <;> simp [hashRun, h]

/-- Witness for `missing_hash_table_truncates_destination`: a world whose
destination already contains a row and whose hash table is missing. -/
theorem missing_hash_table_truncates_destination_witness :
    worldNoTable.hashTable = none ∧
      ((hashRun crateGeo worldNoTable).2.hashTable = some [] ∧
        (hashRun crateGeo worldNoTable).2.destRows = []) :=
  ⟨rfl, missing_hash_table_truncates_destination crateGeo worldNoTable rfl⟩

/-! ### C8: null-geometry records are skipped in both passes -/

/-- C8: for a geometry-bearing crate, a source record whose well-known-text
geometry is `None` is skipped by `_hash`'s cursor loop — it is classified
neither as an add nor as unchanged, the total-row count is unchanged, and a
warning is logged — and the add-phase cursor applies the same skip again,
inserting nothing. -/
theorem null_geometry_skipped_twice (rp : Bool) (pkName : String)
    (s : HashState) (r : SrcRow) (hw : r.wkt = none)
    (c : Crate) (changes : Changes) (w : World) (hc : c.isTable = false) :
    hashStep false rp pkName s r =
      { s with
        salt := s.salt + 1
        warnings := s.warnings ++
          ["Empty geometry found in " ++ pkName ++ ": " ++ r.pk] } ∧
    addStep c changes w r = .ok w := by
  constructor
  · simp [hashStep, hw]
  · simp [addStep, hc, hw]

/-- Witness for `null_geometry_skipped_twice` at a concrete null-geometry
record: both passes leave their state untouched except the salt and the logged
warning. -/
theorem null_geometry_skipped_twice_witness :
    rowNull.wkt = none ∧ crateGeo.isTable = false ∧
      (hashStep false false "ID" emptyState rowNull =
          ⟨[], [], [], [], 0, 1, [], ["Empty geometry found in ID: P"]⟩ ∧
        addStep crateGeo changesEmpty worldNoTable rowNull = .ok worldNoTable) :=
  ⟨rfl, rfl,
    null_geometry_skipped_twice false "ID" emptyState rowNull rfl crateGeo
      changesEmpty worldNoTable rfl⟩

/-! ### C1: the add/unchanged classification of `_hash` -/

/-- C1: in `_hash`'s cursor pass, a non-skipped source record is classified as
an add exactly when its attribute digest is absent from the attribute reverse
lookup or a geometry digest was computed and is absent from the geometry
reverse lookup; in every other case it is classified as unchanged and the
matched attribute entry (and geometry entry, when a geometry digest exists) is
popped from the reverse lookups. -/
theorem hash_classifies_add_iff_digest_absent (it rp : Bool) (pkName : String)
    (s0 : HashState) (rs : List SrcRow) (i : Nat) (hi : i < rs.length)
    (hns : it = true ∨ (rs.get ⟨i, hi⟩).wkt ≠ none) :
    hashPrefix it rp pkName s0 rs (i + 1) =
      (let s := hashPrefix it rp pkName s0 rs i
      let r := rs.get ⟨i, hi⟩
      let a := createHash r.attrs (s.salt + 1)
      let g : Option Digest :=
        if it then none else r.wkt.map (fun x => createHash x (s.salt + 1))
      let geomMissing : Bool :=
        match g with
        | some gd => !dictMem gd s.geomL
        | none => false
      if !dictMem a s.attL || geomMissing then
        { s with
          totalRows := s.totalRows + 1
          salt := s.salt + 1
          inserted := if rp then s.inserted ++ [r] else s.inserted
          adds := dictInsert s.adds r.pk (a, g) }
      else
        { s with
          totalRows := s.totalRows + 1
          salt := s.salt + 1
          attL := dictPop s.attL a
          geomL :=
            match g with
            | some gd => dictPop s.geomL gd
            | none => s.geomL
          unchanged := dictInsert s.unchanged r.pk (a, g) }) := by
  rw [hashPrefix_succ it rp pkName s0 rs i hi]
  have hskip : (!it && (rs.get ⟨i, hi⟩).wkt.isNone) = false := by
    rcases hns with h | h
    · simp [h]
    · cases hx : (rs.get ⟨i, hi⟩).wkt with
      | none => exact absurd hx h
      | some y => simp [hx]
  have hskip2 : ¬((!it && (rs.get ⟨i, hi⟩).wkt.isNone) = true) := by
    simp only [hskip]
    exact Bool.false_ne_true
  unfold hashStep
  rw [if_neg hskip2]

/-- Witness for `hash_classifies_add_iff_digest_absent`: with empty reverse
lookups the single concrete record is classified as an add carrying its
digest pair. -/
theorem hash_classifies_add_iff_digest_absent_witness :
    (0 < (crateGeo.sourceRows).length ∧
        (false = true ∨ ((crateGeo.sourceRows).get ⟨0, by decide⟩).wkt ≠ none)) ∧
      hashPrefix false false "ID" emptyState crateGeo.sourceRows 1 =
        ⟨[], [], [("P", (("a", 1), some ("w", 1)))], [], 1, 1, [], []⟩ :=
  ⟨⟨by decide, Or.inr (by decide)⟩,
    hash_classifies_add_iff_digest_absent false false "ID" emptyState
      crateGeo.sourceRows 0 (by decide) (Or.inr (by decide))⟩

/-! ### C9: digests are salted with the stream position -/

/-- C9: the digest recorded for the non-skipped record at position `i` of the
primary-key-ordered stream is its stringified non-key content hashed together
with the strictly increasing per-run ordinal `i + 1` (the loop's salt counter,
which starts at `s0.salt` and grows by one per streamed row), and two such
digests coincide exactly when both the content and the ordinal coincide. -/
theorem digest_salted_by_stream_position (it rp : Bool) (pkName : String)
    (s0 : HashState) (rs : List SrcRow) (i : Nat) (hi : i < rs.length)
    (hns : it = true ∨ (rs.get ⟨i, hi⟩).wkt ≠ none) :
    (hashPrefix it rp pkName s0 rs i).salt = s0.salt + i ∧
      (dictLookup (hashPrefix it rp pkName s0 rs (i + 1)).adds (rs.get ⟨i, hi⟩).pk =
          some (createHash (rs.get ⟨i, hi⟩).attrs (s0.salt + i + 1),
            if it then none else
              (rs.get ⟨i, hi⟩).wkt.map (fun x => createHash x (s0.salt + i + 1))) ∨
        dictLookup (hashPrefix it rp pkName s0 rs (i + 1)).unchanged (rs.get ⟨i, hi⟩).pk =
          some (createHash (rs.get ⟨i, hi⟩).attrs (s0.salt + i + 1),
            if it then none else
              (rs.get ⟨i, hi⟩).wkt.map (fun x => createHash x (s0.salt + i + 1)))) ∧
      (∀ c1 c2 : String, ∀ n1 n2 : Nat,
        createHash c1 n1 = createHash c2 n2 ↔ (c1 = c2 ∧ n1 = n2)) := by
  have hsalt : (hashPrefix it rp pkName s0 rs i).salt = s0.salt + i := by
    unfold hashPrefix
    rw [hashLoop_salt, List.length_take, min_eq_left (le_of_lt hi)]
  refine ⟨hsalt, ?_, ?_⟩
  · rw [hash_classifies_add_iff_digest_absent it rp pkName s0 rs i hi hns]
    dsimp only
    rw [hsalt]
    split <;> split
    · exact Or.inl (dictLookup_insert_self _ _ _)
    · exact Or.inr (dictLookup_insert_self _ _ _)
    · exact Or.inl (dictLookup_insert_self _ _ _)
    · exact Or.inr (dictLookup_insert_self _ _ _)
  · intro c1 c2 n1 n2
    unfold createHash
    constructor
    · intro h
      exact ⟨congrArg Prod.fst h, congrArg Prod.snd h⟩
    · rintro ⟨h1, h2⟩
      rw [h1, h2]

/-- Witness for `digest_salted_by_stream_position` at the concrete one-row
stream: the recorded digest is the content paired with ordinal 1. -/
theorem digest_salted_by_stream_position_witness :
    (0 < (crateGeo.sourceRows).length ∧
        (false = true ∨ ((crateGeo.sourceRows).get ⟨0, by decide⟩).wkt ≠ none)) ∧
      ((hashPrefix false false "ID" emptyState crateGeo.sourceRows 0).salt = 0 ∧
        (dictLookup (hashPrefix false false "ID" emptyState crateGeo.sourceRows 1).adds "P" =
            some (("a", 1), some ("w", 1)) ∨
          dictLookup (hashPrefix false false "ID" emptyState crateGeo.sourceRows 1).unchanged "P" =
            some (("a", 1), some ("w", 1))) ∧
        (∀ c1 c2 : String, ∀ n1 n2 : Nat,
          createHash c1 n1 = createHash c2 n2 ↔ (c1 = c2 ∧ n1 = n2))) :=
  ⟨⟨by decide, Or.inr (by decide)⟩,
    digest_salted_by_stream_position false false "ID" emptyState
      crateGeo.sourceRows 0 (by decide) (Or.inr (by decide))⟩

/-! ### C2: the exception barrier of `update` -/

/-- The phases of `update` during which an arbitrary fault (any exception that
is not a `ValidationException`) can be raised by the backing store. -/
inductive Phase where
  | creation
  | validation
  | hashing
  | applyDeletes
  | applyAdds
deriving DecidableEq, Repr

/-- Raise the injected fault for a phase, if any. -/
def faultAt (fault : Phase → Option String) (p : Phase) : Except String Unit :=
  match fault p with
  | some m => .error m
  | none => .ok ()

/-- The apply phases with fault injection at each phase that executes. -/
def applyChangesF (c : Crate) (fault : Phase → Option String)
    (status0 : CrateStatus) (changes : Changes) (w : World) :
    Except String ((CrateStatus × Option String) × World) :=
  match (if changes.deletes.isEmpty then .ok (status0, w)
    else
      match faultAt fault .applyDeletes with
      | .error m => .error m
      | .ok _ => .ok (bumpStatus status0, deletePhase changes.deletes w) :
      Except String (CrateStatus × World)) with
  | .error m => .error m
  | .ok p =>
    if changes.adds.isEmpty then .ok ((p.1, none), p.2)
    else
      match faultAt fault .applyAdds with
      | .error m => .error m
      | .ok _ =>
        match addPhase c changes p.2 with
        | .error m => .error m
        | .ok w2 => .ok ((bumpStatus p.1, none), w2)

/-- The body of `update` with fault injection at each phase that executes. -/
def updateBodyF (c : Crate) (v : ValidationResult) (w : World)
    (fault : Phase → Option String) :
    Except String ((CrateStatus × Option String) × World) :=
  match (if !w.destExists then
      match faultAt fault .creation with
      | .error m => .error m
      | .ok _ =>
        match createDestinationData c w with
        | .error m => .error m
        | .ok w2 => .ok (CrateStatus.CREATED, { w2 with hashTable := none })
    else .ok (CrateStatus.NO_CHANGES, w) : Except String (CrateStatus × World)) with
  | .error m => .error m
  | .ok sw =>
    match faultAt fault .validation with
    | .error m => .error m
    | .ok _ =>
      match runValidation v c sw.2 with
      | .error m => .ok ((CrateStatus.INVALID_DATA, some m), sw.2)
      | .ok _ =>
        match faultAt fault .hashing with
        | .error m => .error m
        | .ok _ =>
          let cw := hashRun c sw.2
          applyChangesF c fault sw.1 cw.1 cw.2

/-- The best-effort abort of an open edit session performed inside the
top-level exception handler of `update`; it can itself fail. -/
def abortEditSession (abortFails : Bool) : Except String Unit :=
  if abortFails then .error "abort failed" else .ok ()

/-- `update` with fault injection: the top-level handler catches every fault,
attempts the abort once (discarding its outcome, the bare `except: pass`),
and converts the fault into `(UNHANDLED_EXCEPTION, message)`. -/
def updateF (c : Crate) (v : ValidationResult) (w : World)
    (fault : Phase → Option String) (abortFails : Bool) :
    (CrateStatus × Option String) × World :=
  match updateBodyF c v w fault with
  | .ok r => r
  | .error m =>
    let _ := abortEditSession abortFails
    ((CrateStatus.UNHANDLED_EXCEPTION, some m), w)

/-- C2: `update` never propagates an exception — every fault raised during
creation, validation, change computation, or apply surfaces as the returned
pair `(UNHANDLED_EXCEPTION, fault message)`, and the result does not depend on
whether the best-effort abort of the edit session itself fails, since that
secondary failure is discarded. -/
theorem update_never_raises (c : Crate) (v : ValidationResult) (w : World)
    (fault : Phase → Option String) (ab : Bool) (m : String)
    (h : updateBodyF c v w fault = .error m) :
    updateF c v w fault ab = ((CrateStatus.UNHANDLED_EXCEPTION, some m), w) ∧
      updateF c v w fault true = updateF c v w fault false := by
  constructor
  · simp [updateF, h]
  · unfold updateF
    cases updateBodyF c v w fault <;> rfl

/-- A fault oracle that raises during change computation only. -/
def faultHash : Phase → Option String :=
  fun p => if p = Phase.hashing then some "boom" else none

/-- Witness for `update_never_raises`: a concrete fault during hashing is
returned as `(UNHANDLED_EXCEPTION, "boom")` whether or not the abort fails. -/
theorem update_never_raises_witness :
    updateBodyF crateGeo .notImplemented worldNoTable faultHash = .error "boom" ∧
      (updateF crateGeo .notImplemented worldNoTable faultHash true =
          ((CrateStatus.UNHANDLED_EXCEPTION, some "boom"), worldNoTable) ∧
        updateF crateGeo .notImplemented worldNoTable faultHash true =
          updateF crateGeo .notImplemented worldNoTable faultHash false) :=
  ⟨rfl,
    update_never_raises crateGeo .notImplemented worldNoTable faultHash true "boom"
      rfl⟩

/-! ### C5: schema mismatch blocks apply -/

/-- C5: for a crate whose destination already exists, when the default schema
validation fails `update` returns `(INVALID_DATA, message)` and the world —
in particular the destination rows and the hash-index table — is returned
unchanged. -/
theorem invalid_schema_blocks_apply (c : Crate) (w : World)
    (hex : w.destExists = true) (msg : String)
    (hcs : check_schema c w = .error msg) :
    update c .notImplemented w = ((CrateStatus.INVALID_DATA, some msg), w) := by
  simp [update, updateBody, postCreation, hex, runValidation, hcs]

/-- A crate whose destination declares a field B that the source lacks. -/
def crateMissingField : Crate :=
  ⟨"c", "src", [], [⟨"A", "String", 10⟩], true, false, false, "d.gdb", "ID", id⟩

/-- A world whose existing destination has the extra field B. -/
def worldExtraField : World :=
  ⟨true, true, [⟨1, "x", "y", none⟩], [⟨"A", "String", 10⟩, ⟨"B", "String", 5⟩],
    some [⟨"1", some ("h", 1), none⟩], 2, []⟩

/-- Witness for `invalid_schema_blocks_apply` at a concrete crate/world pair:
the destination field B is absent from the source, validation fails, and the
world is untouched. -/
theorem invalid_schema_blocks_apply_witness :
    (worldExtraField.destExists = true ∧
        check_schema crateMissingField worldExtraField =
          .error "Missing fields in src: B") ∧
      update crateMissingField .notImplemented worldExtraField =
        ((CrateStatus.INVALID_DATA, some "Missing fields in src: B"),
          worldExtraField) :=
  ⟨⟨rfl, rfl⟩,
    invalid_schema_blocks_apply crateMissingField worldExtraField rfl
      "Missing fields in src: B" rfl⟩

/-! ### C7: what `check_schema` collects and what it reports -/

/-- The missing-field entry contributed by one destination field. -/
def missingEntry (src : List (String × Field)) (p : String × Field) :
    Option String :=
  match dictLookup src p.1 with
  | none => some p.2.name
  | some _ => none

/-- The mismatching-field entry contributed by one destination field. -/
def mismatchEntry (src : List (String × Field)) (p : String × Field) :
    Option String :=
  match dictLookup src p.1 with
  | none => none
  | some sourceFld =>
    if abstractType sourceFld.ftype ≠ abstractType p.2.ftype then
      some (sourceFld.name ++ ": source type of " ++ sourceFld.ftype ++
        " does not match destination type of " ++ p.2.ftype)
    else if sourceFld.ftype = "String" &&
        truncateFieldLength sourceFld.length ≠ truncateFieldLength p.2.length then
      some (sourceFld.name ++ ": source length of " ++
        toString (truncateFieldLength sourceFld.length) ++
        " does not match destination length of " ++
        toString (truncateFieldLength p.2.length))
    else none

theorem checkSchemaCollect_eq (src dst : List (String × Field)) :
    checkSchemaCollect src dst =
      (dst.filterMap (missingEntry src), dst.filterMap (mismatchEntry src)) := by
  suffices h : ∀ acc : List String × List String,
      dst.foldl
        (fun (acc : List String × List String) p =>
          let destinationFld := p.2
          match dictLookup src p.1 with
          | none => (acc.1 ++ [destinationFld.name], acc.2)
          | some sourceFld =>
            if abstractType sourceFld.ftype ≠ abstractType destinationFld.ftype then
              (acc.1,
                acc.2 ++ [sourceFld.name ++ ": source type of " ++ sourceFld.ftype ++
                  " does not match destination type of " ++ destinationFld.ftype])
            else if sourceFld.ftype = "String" &&
                truncateFieldLength sourceFld.length ≠
                  truncateFieldLength destinationFld.length then
              (acc.1,
                acc.2 ++ [sourceFld.name ++ ": source length of " ++
                  toString (truncateFieldLength sourceFld.length) ++
                  " does not match destination length of " ++
                  toString (truncateFieldLength destinationFld.length)])
            else acc)
        acc =
      (acc.1 ++ dst.filterMap (missingEntry src),
        acc.2 ++ dst.filterMap (mismatchEntry src)) by
    simpa [checkSchemaCollect] using h ([], [])
  induction dst with
  | nil => intro acc; simp
  | cons p rest ih =>
    intro acc
    rw [List.foldl_cons, ih, List.filterMap_cons, List.filterMap_cons]
    unfold missingEntry mismatchEntry
    dsimp only
    cases hq : dictLookup src p.1 with
    | none => simp
    | some sf =>
      by_cases h1 : abstractType sf.ftype ≠ abstractType p.2.ftype
      · simp [h1]
      · simp only [ne_eq, not_not] at h1
        by_cases h2 : sf.ftype = "String" ∧
            truncateFieldLength sf.length ≠ truncateFieldLength p.2.length
        · rw [h2.1] at h1
          simp [h1, h2, h2.1, h2.2]
        · simp only [not_and, not_not] at h2
          by_cases h3 : sf.ftype = "String"
          · rw [h3] at h1
            simp [h1, h3, h2 h3]
          · simp [h1, h3]

/-- A crate whose source has field A of numeric type. -/
def crateC7 : Crate :=
  ⟨"c", "src", [], [⟨"A", "Integer", 4⟩], true, false, false, "d.gdb", "ID", id⟩

/-- A world whose destination has field A of text type and an extra field B,
so `check_schema` collects one missing and one mismatching field. -/
def worldC7 : World :=
  ⟨true, true, [], [⟨"A", "String", 5⟩, ⟨"B", "String", 5⟩], some [], 1, []⟩

/-- C7 counterexample: at a concrete schema pair both a missing field (B) and
a mismatching field (A) are collected, yet the raised validation error carries
only the missing list — the mismatch description does not occur in it — so
the error does not carry the full list of all collected missing and
mismatching fields. -/
theorem check_schema_drops_mismatches_when_missing :
    checkSchemaCollect (getFields crateC7.sourceFields) (getFields worldC7.destFields) =
      (["B"], ["A: source type of Integer does not match destination type of String"]) ∧
      check_schema crateC7 worldC7 = .error "Missing fields in src: B" ∧
      strContains "Missing fields in src: B"
        "A: source type of Integer does not match destination type of String" = false :=
  ⟨rfl, rfl, rfl⟩

/-- C7 amended: `check_schema` collects the missing and mismatching fields
over all destination fields without short-circuiting (the collected pair is a
filter of the full destination field list), and when anything was collected it
fails with a validation error carrying the full list of collected missing
fields if any field is missing, and otherwise the full list of collected
mismatching fields. -/
theorem check_schema_reports_collected (c : Crate) (w : World)
    (missing mismatching : List String)
    (hc : checkSchemaCollect (getFields c.sourceFields) (getFields w.destFields) =
      (missing, mismatching)) :
    (missing, mismatching) =
      ((getFields w.destFields).filterMap (missingEntry (getFields c.sourceFields)),
        (getFields w.destFields).filterMap (mismatchEntry (getFields c.sourceFields))) ∧
      (missing ≠ [] →
        check_schema c w = .error ("Missing fields in " ++ c.sourceName ++ ": " ++
          String.intercalate ", " missing)) ∧
      (missing = [] → mismatching ≠ [] →
        check_schema c w = .error ("Mismatching fields in " ++ c.sourceName ++ ": " ++
          String.intercalate ", " mismatching)) := by
  refine ⟨hc ▸ checkSchemaCollect_eq _ _, ?_, ?_⟩
  · intro hne
    unfold check_schema
    rw [hc]
    simp [hne]
  · intro hm hne
    unfold check_schema
    rw [hc]
    simp [hm, hne]

/-- Witness for `check_schema_reports_collected` at the concrete schema pair
of the counterexample input. -/
theorem check_schema_reports_collected_witness :
    checkSchemaCollect (getFields crateC7.sourceFields) (getFields worldC7.destFields) =
      (["B"], ["A: source type of Integer does not match destination type of String"]) ∧
      ((["B"],
          ["A: source type of Integer does not match destination type of String"]) =
        ((getFields worldC7.destFields).filterMap
            (missingEntry (getFields crateC7.sourceFields)),
          (getFields worldC7.destFields).filterMap
            (mismatchEntry (getFields crateC7.sourceFields))) ∧
        ((["B"] : List String) ≠ [] →
          check_schema crateC7 worldC7 = .error ("Missing fields in " ++
            crateC7.sourceName ++ ": " ++ String.intercalate ", " ["B"])) ∧
        ((["B"] : List String) = [] →
          (["A: source type of Integer does not match destination type of String"] :
            List String) ≠ [] →
          check_schema crateC7 worldC7 = .error ("Mismatching fields in " ++
            crateC7.sourceName ++ ": " ++ String.intercalate ", "
              ["A: source type of Integer does not match destination type of String"]))) :=
  ⟨rfl,
    check_schema_reports_collected crateC7 worldC7 ["B"]
      ["A: source type of Integer does not match destination type of String"] rfl⟩

/-! ### C6: creation of a missing destination -/

/-- The fields taking part in schema comparison: the managed/internal fields
(`_is_naughty_field`, OBJECTID, FID) are excluded. -/
def comparedFields (fs : List Field) : List Field :=
  fs.filter (fun f =>
    !isNaughtyField f.name && !(f.name = "OBJECTID" || f.name = "FID"))

/-- A dict in which every stored entry is found again by its key. -/
def GoodDict {α β : Type} [DecidableEq α] (m : List (α × β)) : Prop :=
  ∀ p ∈ m, dictLookup m p.1 = some p.2

theorem dictLookup_cons {α β : Type} [DecidableEq α] (p : α × β)
    (rest : List (α × β)) (x : α) :
    dictLookup (p :: rest) x =
      if p.1 = x then some p.2 else dictLookup rest x := by
  unfold dictLookup
  by_cases h : p.1 = x <;> simp [List.find?_cons, h]

theorem dictLookup_filter_ne {α β : Type} [DecidableEq α]
    (m : List (α × β)) (k x : α) (hx : x ≠ k) :
    dictLookup (m.filter (fun q => !decide (q.1 = k))) x = dictLookup m x := by
  induction m with
  | nil => rfl
  | cons p rest ih =>
    rw [List.filter_cons]
    by_cases h : p.1 = k
    · rw [if_neg (by simp [h]), dictLookup_cons,
        if_neg (fun hh : p.1 = x => hx (by rw [← hh, h]))]
      exact ih
    · rw [if_pos (by simp [h]), dictLookup_cons, dictLookup_cons]
      by_cases h2 : p.1 = x
      · rw [if_pos h2, if_pos h2]
      · rw [if_neg h2, if_neg h2]
        exact ih

theorem goodDict_insert {α β : Type} [DecidableEq α]
    (m : List (α × β)) (k : α) (v : β) (hm : GoodDict m) :
    GoodDict (dictInsert m k v) := by
  intro p hp
  unfold dictInsert at hp
  rcases List.mem_append.mp hp with h | h
  · have hne : ¬p.1 = k := by
      have := List.of_mem_filter h
      simpa using this
    have hmem : p ∈ m := List.mem_of_mem_filter h
    unfold dictInsert
    rw [dictLookup]
    rw [List.find?_append]
    have h1 : dictLookup (m.filter (fun q => !decide (q.1 = k))) p.1 = some p.2 := by
      rw [dictLookup_filter_ne m k p.1 hne]
      exact hm p hmem
    unfold dictLookup at h1
    cases hf : List.find? (fun q => decide (q.1 = p.1)) (m.filter (fun q => !decide (q.1 = k))) with
    | none => rw [hf] at h1; simp at h1
    | some q => rw [hf] at h1; simp [hf]; simpa using h1
  · have hpk : p = (k, v) := by simpa using h
    subst hpk
    unfold dictInsert dictLookup
    rw [List.find?_append]
    cases hf : List.find? (fun q => decide (q.1 = (k, v).1)) (m.filter (fun q => !decide (q.1 = k))) with
    | none => simp
    | some q =>
      exfalso
      have := List.find?_some hf
      have hq := List.mem_filter.mp (List.mem_of_find?_eq_some hf)
      simp at this hq
      exact hq.2 this

theorem goodDict_getFields (fs : List Field) : GoodDict (getFields fs) := by
  unfold getFields
  suffices h : ∀ acc : List (String × Field), GoodDict acc →
      GoodDict (fs.foldl
        (fun m f =>
          if !isNaughtyField f.name && !(f.name = "OBJECTID" || f.name = "FID") then
            dictInsert m (toUpperStr f.name) f
          else m) acc) by
    exact h [] (by intro p hp; simp at hp)
  induction fs with
  | nil => intro acc hacc; exact hacc
  | cons f rest ih =>
    intro acc hacc
    rw [List.foldl_cons]
    by_cases hf : (!isNaughtyField f.name && !(f.name = "OBJECTID" || f.name = "FID")) = true
    · rw [if_pos hf]
      exact ih _ (goodDict_insert _ _ _ hacc)
    · rw [if_neg hf]
      exact ih _ hacc

theorem checkSchemaCollect_self (m : List (String × Field)) (hm : GoodDict m) :
    checkSchemaCollect m m = ([], []) := by
  rw [checkSchemaCollect_eq]
  have h1 : List.filterMap (missingEntry m) m = [] := by
    simp only [List.filterMap_eq_nil]
    intro p hp
    unfold missingEntry
    rw [hm p hp]
  have h2 : List.filterMap (mismatchEntry m) m = [] := by
    simp only [List.filterMap_eq_nil]
    intro p hp
    unfold mismatchEntry
    rw [hm p hp]
    simp
  rw [h1, h2]

/-- `check_schema` succeeds whenever the compared destination dict equals the
compared source dict. -/
theorem check_schema_ok_of_same (c : Crate) (w : World)
    (h : getFields w.destFields = getFields c.sourceFields) :
    check_schema c w = .ok true := by
  unfold check_schema
  rw [h, checkSchemaCollect_self _ (goodDict_getFields _)]
  rfl

theorem getFields_append_fid (fs : List Field) (t : String) (l : Nat) :
    getFields (fs ++ [⟨"FID", t, l⟩]) = getFields fs := by
  unfold getFields
  rw [List.foldl_append]
  rfl

theorem comparedFields_append_fid (fs : List Field) (t : String) (l : Nat) :
    comparedFields (fs ++ [⟨"FID", t, l⟩]) = comparedFields fs := by
  unfold comparedFields
  rw [List.filter_append]
  simp [isNaughtyField, strContains, toUpperStr, strStartsWith, containsSub]

theorem hashLoop_empty_lookups (it rp : Bool) (pk : String) (s : HashState)
    (rs : List SrcRow) (ha : s.attL = []) (hg : s.geomL = []) :
    (hashLoop it rp pk s rs).attL = [] ∧ (hashLoop it rp pk s rs).geomL = [] := by
  induction rs generalizing s with
  | nil => exact ⟨ha, hg⟩
  | cons r rest ih =>
    rw [hashLoop]
    have hstep : (hashStep it rp pk s r).attL = [] ∧
        (hashStep it rp pk s r).geomL = [] := by
      unfold hashStep
      cases it with
      | true =>
        rw [if_neg (by simp)]
        dsimp only
        constructor
        · rw [apply_ite HashState.attL]
          dsimp only
          rw [ha]
          simp [dictPop]
        · rw [apply_ite HashState.geomL]
          dsimp only
          rw [hg]
          simp [dictPop]
      | false =>
        cases hw : r.wkt with
        | none =>
          rw [if_pos (by simp [hw])]
          exact ⟨ha, hg⟩
        | some y =>
          rw [if_neg (by simp [hw])]
          dsimp only
          constructor
          · rw [apply_ite HashState.attL]
            dsimp only
            rw [ha]
            simp [dictPop]
          · rw [apply_ite HashState.geomL]
            dsimp only
            rw [hg]
            simp [dictPop]
    exact ih _ hstep.1 hstep.2

theorem dictMem_lookup {α β : Type} [DecidableEq α] (k : α) (m : List (α × β))
    (h : dictMem k m = true) : ∃ v, dictLookup m k = some v := by
  induction m with
  | nil => simp [dictMem] at h
  | cons p rest ih =>
    by_cases hp : p.1 = k
    · exact ⟨p.2, by simp [dictLookup, List.find?, hp]⟩
    · have h2 : dictMem k rest = true := by
        simpa [dictMem, hp] using h
      rcases ih h2 with ⟨v, hv⟩
      exact ⟨v, by simpa [dictLookup, List.find?, hp] using hv⟩

/-- The frame of one add-phase insertion: dataset existence and schema are
untouched. -/
theorem addStep_frame (c : Crate) (ch : Changes) (w : World) (r : SrcRow)
    (w2 : World) (h : addStep c ch w r = .ok w2) :
    w2.destFields = w.destFields ∧ w2.destExists = w.destExists ∧
      w2.destWorkspaceExists = w.destWorkspaceExists := by
  unfold addStep at h
  split at h
  · cases h; exact ⟨rfl, rfl, rfl⟩
  · split at h
    · cases h
    · cases h; exact ⟨rfl, rfl, rfl⟩

theorem addLoop_frame (c : Crate) (ch : Changes) (rows : List SrcRow)
    (w w2 : World) (h : addLoop c ch w rows = .ok w2) :
    w2.destFields = w.destFields ∧ w2.destExists = w.destExists ∧
      w2.destWorkspaceExists = w.destWorkspaceExists := by
  induction rows generalizing w with
  | nil => cases h; exact ⟨rfl, rfl, rfl⟩
  | cons r rest ih =>
    rw [addLoop] at h
    cases hs : addStep c ch w r with
    | error e => rw [hs] at h; cases h
    | ok wmid =>
      rw [hs] at h
      have h1 := addStep_frame c ch w r wmid hs
      have h2 := ih wmid h
      exact ⟨h2.1.trans h1.1, h2.2.1.trans h1.2.1, h2.2.2.trans h1.2.2⟩

theorem addLoop_ok_of_adds (c : Crate) (ch : Changes) (rows : List SrcRow)
    (w : World) (h : ∀ r ∈ rows, dictMem r.pk ch.adds = true) :
    ∃ w2, addLoop c ch w rows = .ok w2 := by
  induction rows generalizing w with
  | nil => exact ⟨w, rfl⟩
  | cons r rest ih =>
    have hstep : ∃ wmid, addStep c ch w r = .ok wmid := by
      unfold addStep
      split
      · exact ⟨w, rfl⟩
      · rcases dictMem_lookup r.pk ch.adds (h r (by simp)) with ⟨v, hv⟩
        unfold addRowDigests
        rw [hv]
        exact ⟨_, rfl⟩
    rcases hstep with ⟨wmid, hmid⟩
    rcases ih wmid (fun q hq => h q (List.mem_cons_of_mem _ hq)) with ⟨w2, h2⟩
    exact ⟨w2, by rw [addLoop, hmid]; exact h2⟩

theorem addPhase_ok (c : Crate) (ch : Changes) (w : World) :
    ∃ w2, addPhase c ch w = .ok w2 := by
  unfold addPhase
  exact addLoop_ok_of_adds c ch _ w
    (fun r hr => (List.mem_filter.mp hr).2)

/-- The world-frame of `hashRun`: only the hash table, the destination rows
(truncation) and the warnings can change. -/
theorem hashRun_frame (c : Crate) (w : World) :
    (hashRun c w).2.destFields = w.destFields ∧
      (hashRun c w).2.destExists = w.destExists ∧
      (hashRun c w).2.destWorkspaceExists = w.destWorkspaceExists ∧
      (hashRun c w).2.nextOid = w.nextOid := by
  unfold hashRun
  cases h : w.hashTable <;> simp [h]

/-- A crate whose destination workspace neither exists nor names a file
geodatabase. -/
def crateNoGdb : Crate :=
  ⟨"c", "src", [rowW], [⟨"A", "String", 10⟩], false, false, false, "C:/dest",
    "ID", id⟩

/-- A world with no destination and no destination workspace. -/
def worldNoDest : World := ⟨false, false, [], [], none, 1, []⟩

/-- C6 counterexample: for a concrete crate whose destination does not exist,
`update` returns `(UNHANDLED_EXCEPTION, ...)` — not CREATED — because the
missing destination workspace is not a file geodatabase and
`_create_destination_data` raises. -/
theorem creation_can_return_unhandled :
    worldNoDest.destExists = false ∧
      update crateNoGdb .notImplemented worldNoDest =
        ((CrateStatus.UNHANDLED_EXCEPTION,
          some "destination_workspace does not exist! C:/dest"), worldNoDest) :=
  ⟨rfl, rfl⟩

/-- C6 amended: for a crate whose destination does not exist, provided the
destination workspace exists or is a file-geodatabase path (so that creation
cannot raise) and the pallet supplies no custom validation, `update` returns
CREATED and the created destination's schema minus the excluded
managed/internal fields equals the source schema minus the same exclusions. -/
theorem creation_returns_created (c : Crate) (w : World)
    (hex : w.destExists = false)
    (hws : w.destWorkspaceExists = true ∨
      strEndsWith c.destinationWorkspace ".gdb" = true) :
    (update c .notImplemented w).1 = (CrateStatus.CREATED, none) ∧
      comparedFields (update c .notImplemented w).2.destFields =
        comparedFields c.sourceFields := by
  have hcd : ∃ w1, createDestinationData c w = .ok (createDataset c w1) := by
    unfold createDestinationData
    rcases hws with h | h
    · rw [h]
      exact ⟨w, rfl⟩
    · by_cases h2 : w.destWorkspaceExists
      · rw [if_neg (by simp [h2])]
        exact ⟨w, rfl⟩
      · rw [if_pos (by simp [h2]), if_pos h]
        exact ⟨_, rfl⟩
  rcases hcd with ⟨w1, hw1⟩
  have hpc : postCreation c w =
      .ok (CrateStatus.CREATED, { createDataset c w1 with hashTable := none }) := by
    unfold postCreation
    rw [if_pos (by simp [hex]), hw1]
  set wc : World := { createDataset c w1 with hashTable := none } with hwc
  have hfields : wc.destFields = c.sourceFields ++
      (if !c.isTable && c.sourceIsShapefile then [⟨"FID", "Integer", 4⟩] else []) := rfl
  have hget : getFields wc.destFields = getFields c.sourceFields := by
    rw [hfields]
    by_cases hfid : (!c.isTable && c.sourceIsShapefile) = true
    · rw [if_pos hfid, getFields_append_fid]
    · rw [if_neg hfid, List.append_nil]
  have hval : runValidation .notImplemented c wc = .ok true := by
    unfold runValidation
    exact check_schema_ok_of_same c wc hget
  have hdel : (hashRun c wc).1.deletes = [] := by
    have h0 := hashLoop_empty_lookups c.isTable c.needsReproject
      c.sourcePrimaryKey ⟨[], [], [], [], 0, 0, [], []⟩ c.sourceRows rfl rfl
    show dictValues (hashLoop c.isTable c.needsReproject c.sourcePrimaryKey
        ⟨[], [], [], [], 0, 0, [], []⟩ c.sourceRows).attL ++
      dictValues (hashLoop c.isTable c.needsReproject c.sourcePrimaryKey
        ⟨[], [], [], [], 0, 0, [], []⟩ c.sourceRows).geomL = []
    rw [h0.1, h0.2]
    rfl
  have hcompared : comparedFields wc.destFields = comparedFields c.sourceFields := by
    rw [hfields]
    by_cases hfid : (!c.isTable && c.sourceIsShapefile) = true
    · rw [if_pos hfid, comparedFields_append_fid]
    · rw [if_neg hfid, List.append_nil]
  have hrunframe := hashRun_frame c wc
  rcases addPhase_ok c (hashRun c wc).1 (hashRun c wc).2 with ⟨w2, hw2⟩
  have haddframe := addLoop_frame c (hashRun c wc).1 _ _ _ hw2
  have happly : ∃ wfin,
      applyChanges c CrateStatus.CREATED (hashRun c wc).1 (hashRun c wc).2 =
        .ok ((CrateStatus.CREATED, none), wfin) ∧
        wfin.destFields = wc.destFields := by
    unfold applyChanges
    rw [hdel]
    rw [if_pos (by simp : (([] : List String).isEmpty = true))]
    dsimp only
    by_cases hadds : (hashRun c wc).1.adds.isEmpty = true
    · rw [if_pos hadds]
      exact ⟨_, rfl, hrunframe.1⟩
    · rw [if_neg hadds, hw2]
      exact ⟨w2, rfl, haddframe.1.trans hrunframe.1⟩
  rcases happly with ⟨wfin, hfin, hfinfields⟩
  have hbody : updateBody c .notImplemented w = .ok ((CrateStatus.CREATED, none), wfin) := by
    unfold updateBody
    rw [hpc]
    dsimp only
    rw [hval]
    exact hfin
  constructor
  · unfold update
    rw [hbody]
  · unfold update
    rw [hbody]
    dsimp only
    rw [hfinfields, hcompared]

/-- Witness for `creation_returns_created`: a concrete geometry crate with a
missing destination inside an existing workspace. -/
theorem creation_returns_created_witness :
    ((⟨false, true, [], [], none, 1, []⟩ : World).destExists = false ∧
        ((⟨false, true, [], [], none, 1, []⟩ : World).destWorkspaceExists = true ∨
          strEndsWith crateGeo.destinationWorkspace ".gdb" = true)) ∧
      ((update crateGeo .notImplemented ⟨false, true, [], [], none, 1, []⟩).1 =
          (CrateStatus.CREATED, none) ∧
        comparedFields
            (update crateGeo .notImplemented ⟨false, true, [], [], none, 1, []⟩).2.destFields =
          comparedFields crateGeo.sourceFields) :=
  ⟨⟨rfl, Or.inl rfl⟩,
    creation_returns_created crateGeo ⟨false, true, [], [], none, 1, []⟩ rfl
      (Or.inl rfl)⟩

/-! ### C4: what the delete phase actually removes -/

/-- The change set a run of `update` computes: the hash pass on the
post-creation world. -/
def runChanges (c : Crate) (w : World) : Changes :=
  match postCreation c w with
  | .error _ => ⟨[], [], [], 0, [], false⟩
  | .ok sw => (hashRun c sw.2).1

/-- A tabular crate whose source stream is empty. -/
def crateTab : Crate :=
  ⟨"c", "src", [], [⟨"A", "String", 10⟩], true, false, false, "d.gdb", "ID", id⟩

/-- A world whose hash index holds the identifier "7" with a stale digest and
whose destination holds the record carrying the destination-assigned
identifier 7 under primary-key value "A". -/
def worldStale : World :=
  ⟨true, true, [⟨7, "A", "a", none⟩], [⟨"A", "String", 10⟩],
    some [⟨"7", some ("x", 5), none⟩], 8, []⟩

/-- C4 counterexample: the identifier "7" is in the hash index before the run,
its stored digest recurs in no source record (the source is empty), the run
succeeds with UPDATED — the hash-index row is removed, but the destination
record carrying identifier 7 is still present after the run, because the
delete phase matches the identifiers against the primary-key field (value
"A"), not against the destination-assigned identifier. -/
theorem delete_misses_destination_row :
    worldStale.hashTable = some [⟨"7", some ("x", 5), none⟩] ∧
      (runChanges crateTab worldStale).deletes = ["7"] ∧
      (update crateTab .ok worldStale).1.1 = CrateStatus.UPDATED ∧
      (update crateTab .ok worldStale).2.destRows = [⟨7, "A", "a", none⟩] ∧
      (update crateTab .ok worldStale).2.hashTable = some [] :=
  ⟨rfl, rfl, rfl, rfl, rfl⟩

theorem addStep_mem (c : Crate) (ch : Changes) (w : World) (r : SrcRow)
    (w2 : World) (h : addStep c ch w r = .ok w2) :
    (∀ hr ∈ w2.hashTable.getD [], hr ∈ w.hashTable.getD [] ∨
      ∃ n, w.nextOid ≤ n ∧ n < w2.nextOid ∧ hr.id = toString n) ∧
    (∀ dr ∈ w2.destRows, dr ∈ w.destRows ∨ w.nextOid ≤ dr.oid) ∧
    w.nextOid ≤ w2.nextOid ∧ w2.nextOid ≤ w.nextOid + 1 := by
  unfold addStep at h
  split at h
  · cases h
    exact ⟨fun hr hh => Or.inl hh, fun dr hh => Or.inl hh, le_refl _, by omega⟩
  · split at h
    · cases h
    · cases h
      refine ⟨?_, ?_, by simp, by simp⟩
      · intro hr hh
        simp only [Option.getD_some] at hh
        rcases List.mem_append.mp hh with h1 | h1
        · exact Or.inl h1
        · right
          refine ⟨w.nextOid, le_refl _, by simp, ?_⟩
          simp at h1
          rw [h1]
      · intro dr hh
        rcases List.mem_append.mp hh with h1 | h1
        · exact Or.inl h1
        · right
          simp at h1
          rw [h1]

theorem addLoop_mem (c : Crate) (ch : Changes) (rows : List SrcRow)
    (w w2 : World) (h : addLoop c ch w rows = .ok w2) :
    (∀ hr ∈ w2.hashTable.getD [], hr ∈ w.hashTable.getD [] ∨
      ∃ n, w.nextOid ≤ n ∧ n < w2.nextOid ∧ hr.id = toString n) ∧
    (∀ dr ∈ w2.destRows, dr ∈ w.destRows ∨ w.nextOid ≤ dr.oid) ∧
    w.nextOid ≤ w2.nextOid ∧ w2.nextOid ≤ w.nextOid + rows.length := by
  induction rows generalizing w with
  | nil =>
    cases h
    exact ⟨fun hr hh => Or.inl hh, fun dr hh => Or.inl hh, le_refl _, by simp⟩
  | cons r rest ih =>
    rw [addLoop] at h
    cases hs : addStep c ch w r with
    | error e => rw [hs] at h; cases h
    | ok wmid =>
      rw [hs] at h
      have h1 := addStep_mem c ch w r wmid hs
      have h2 := ih wmid h
      have hlen : w2.nextOid ≤ w.nextOid + (r :: rest).length := by
        have := h1.2.2.2
        have := h2.2.2.2
        simp only [List.length_cons]
        omega
      refine ⟨?_, ?_, h1.2.2.1.trans h2.2.2.1, hlen⟩
      · intro hr hh
        rcases h2.1 hr hh with hc | ⟨n, hn, hn2, he⟩
        · rcases h1.1 hr hc with hc2 | ⟨n, hn, hn2, he⟩
          · exact Or.inl hc2
          · exact Or.inr ⟨n, hn, lt_of_lt_of_le hn2 h2.2.2.1, he⟩
        · exact Or.inr ⟨n, h1.2.2.1.trans hn, hn2, he⟩
      · intro dr hh
        rcases h2.2.1 dr hh with hc | hc
        · exact h1.2.1 dr hc
        · exact Or.inr (h1.2.2.1.trans hc)

theorem length_ite_le {α : Type} (b : Prop) [Decidable b] (l1 l2 : List α)
    (k : Nat) (h1 : l1.length ≤ k) (h2 : l2.length ≤ k) :
    (if b then l1 else l2).length ≤ k := by
  split
  · exact h1
  · exact h2

theorem hashLoop_inserted_len (it rp : Bool) (pk : String) (s : HashState)
    (rs : List SrcRow) :
    (hashLoop it rp pk s rs).inserted.length ≤ s.inserted.length + rs.length := by
  induction rs generalizing s with
  | nil => simp [hashLoop]
  | cons r rest ih =>
    rw [hashLoop]
    have hstep : (hashStep it rp pk s r).inserted.length ≤ s.inserted.length + 1 := by
      unfold hashStep
      split
      · simp
      · dsimp only
        rw [apply_ite HashState.inserted]
        dsimp only
        apply length_ite_le
        · apply length_ite_le
          · simp
          · omega
        · omega
    have := ih (hashStep it rp pk s r)
    simp only [List.length_cons]
    omega

/-- Every destination row surviving `hashRun` was already present. -/
theorem hashRun_destRows_sub (c : Crate) (w : World) :
    ∀ dr ∈ (hashRun c w).2.destRows, dr ∈ w.destRows := by
  unfold hashRun
  cases h : w.hashTable with
  | none => intro dr hh; simp [h] at hh
  | some t => intro dr hh; simpa [h] using hh

/-- Every hash-index row surviving `hashRun` was already present. -/
theorem hashRun_hashRows_sub (c : Crate) (w : World) :
    ∀ hr ∈ (hashRun c w).2.hashTable.getD [], hr ∈ w.hashTable.getD [] := by
  unfold hashRun
  cases h : w.hashTable with
  | none => intro hr hh; simp [h] at hh
  | some t => intro hr hh; simpa [h] using hh

theorem hashRun_nextOid (c : Crate) (w : World) :
    (hashRun c w).2.nextOid = w.nextOid := (hashRun_frame c w).2.2.2

/-- The insertion stream of the computed change set is no longer than the
source stream. -/
theorem hashRun_tableRows_len (c : Crate) (w : World) :
    (hashRun c w).1.tableRows.length ≤ c.sourceRows.length := by
  unfold hashRun
  dsimp only
  split
  · exact le_trans (hashLoop_inserted_len _ _ _ _ _) (by simp)
  · exact le_refl _

/-- C4 amended: for every identifier in the computed delete set (an identifier
remaining in the reverse lookups after all source records are matched), after
a run of `update` that completes without fault and without a validation
failure, no hash-index row carries that identifier any more, and every
destination record present before the run whose primary-key value equals the
identifier is absent from the destination — the delete phase removes
destination rows by primary-key value, not by destination-assigned
identifier. -/
theorem delete_removes_hash_row_and_matching_pks (c : Crate)
    (v : ValidationResult) (w : World) (st : CrateStatus) (msg : Option String)
    (wfin : World)
    (hrun : updateBody c v w = .ok ((st, msg), wfin))
    (hst : st ≠ CrateStatus.INVALID_DATA)
    (idv : String)
    (hid : idv ∈ (runChanges c w).deletes)
    (hoid : ∀ n : Nat, w.nextOid ≤ n → n < w.nextOid + c.sourceRows.length →
      idv ≠ toString n)
    (hdest : ∀ dr ∈ w.destRows, dr.oid < w.nextOid) :
    (∀ hr ∈ wfin.hashTable.getD [], hr.id ≠ idv) ∧
      (∀ dr ∈ w.destRows, dr.pk = idv → dr ∉ wfin.destRows) := by
  unfold updateBody at hrun
  cases hpc : postCreation c w with
  | error m => rw [hpc] at hrun; cases hrun
  | ok sw =>
    rw [hpc] at hrun
    dsimp only at hrun
    have hid2 : idv ∈ (hashRun c sw.2).1.deletes := by
      unfold runChanges at hid
      rw [hpc] at hid
      exact hid
    -- the post-creation world keeps the oid counter and only shrinks destRows
    have hsw : sw.2.nextOid = w.nextOid ∧
        (∀ dr ∈ sw.2.destRows, dr ∈ w.destRows) := by
      unfold postCreation at hpc
      by_cases hde : w.destExists
      · rw [if_neg (by simp [hde])] at hpc
        cases hpc
        exact ⟨rfl, fun dr hh => hh⟩
      · rw [if_pos (by simp [hde])] at hpc
        cases hcc : createDestinationData c w with
        | error m => rw [hcc] at hpc; cases hpc
        | ok w2 =>
          rw [hcc] at hpc
          cases hpc
          unfold createDestinationData at hcc
          have hnone : w2.destRows = [] ∧ w2.nextOid = w.nextOid := by
            split at hcc
            · split at hcc
              · cases hcc; exact ⟨rfl, rfl⟩
              · cases hcc
            · cases hcc; exact ⟨rfl, rfl⟩
          refine ⟨hnone.2, ?_⟩
          intro dr hh
          rw [show ({ w2 with hashTable := none } : World).destRows = w2.destRows
            from rfl, hnone.1] at hh
          cases hh
    cases hval : runValidation v c sw.2 with
    | error m =>
      rw [hval] at hrun
      cases hrun
      exact absurd rfl hst
    | ok b =>
      rw [hval] at hrun
      dsimp only at hrun
      unfold applyChanges at hrun
      have hdelF : (hashRun c sw.2).1.deletes.isEmpty = false := by
        cases hq : (hashRun c sw.2).1.deletes.isEmpty with
        | false => rfl
        | true =>
          rw [List.isEmpty_iff] at hq
          rw [hq] at hid2
          cases hid2
      rw [hdelF] at hrun
      simp only [Bool.false_eq_true, if_false] at hrun
      set wdel := deletePhase (hashRun c sw.2).1.deletes (hashRun c sw.2).2 with hwdel
      have hdelrows : (∀ hr ∈ wdel.hashTable.getD [], hr.id ≠ idv) ∧
          (∀ dr ∈ wdel.destRows, ¬dr.pk = idv) ∧
          wdel.nextOid = w.nextOid := by

        refine ⟨?_, ?_, ?_⟩
        · intro hr hh
          rw [hwdel] at hh
          unfold deletePhase at hh
          simp only [Option.getD_some] at hh
          have := List.of_mem_filter hh
          intro he
          rw [Bool.not_eq_eq_eq_not, Bool.not_true] at this
          have hmem : inDeletes (hashRun c sw.2).1.deletes hr.id = true := by
            unfold inDeletes
            rw [List.any_eq_true]
            exact ⟨idv, hid2, by rw [he]; simp⟩
          rw [hmem] at this
          cases this
        · intro dr hh
          rw [hwdel] at hh
          unfold deletePhase at hh
          have := List.of_mem_filter hh
          intro he
          rw [Bool.not_eq_eq_eq_not, Bool.not_true] at this
          have hmem : inDeletes (hashRun c sw.2).1.deletes dr.pk = true := by
            unfold inDeletes
            rw [List.any_eq_true]
            exact ⟨idv, hid2, by rw [he]; simp⟩
          rw [hmem] at this
          cases this
        · rw [hwdel]
          unfold deletePhase
          dsimp only
          rw [hashRun_nextOid, hsw.1]
      by_cases hadds : (hashRun c sw.2).1.adds.isEmpty = true
      · rw [if_pos hadds] at hrun
        rw [Except.ok.injEq, Prod.ext_iff] at hrun
        have hwf : wfin = wdel := hrun.2.symm
        subst hwf
        refine ⟨hdelrows.1, ?_⟩
        intro dr hdr hpk hmem
        exact hdelrows.2.1 dr hmem hpk
      · rw [if_neg hadds] at hrun
        cases hadd : addPhase c (hashRun c sw.2).1 wdel with
        | error m => rw [hadd] at hrun; cases hrun
        | ok w2 =>
          rw [hadd] at hrun
          rw [Except.ok.injEq, Prod.ext_iff] at hrun
          have hwf : wfin = w2 := hrun.2.symm
          rw [hwf]
          unfold addPhase at hadd
          have hmm := addLoop_mem c (hashRun c sw.2).1
            ((hashRun c sw.2).1.tableRows.filter
              (fun r => dictMem r.pk (hashRun c sw.2).1.adds)) wdel w2 hadd
          have hrowslen : ((hashRun c sw.2).1.tableRows.filter
              (fun r => dictMem r.pk (hashRun c sw.2).1.adds)).length ≤
              c.sourceRows.length :=
            le_trans (List.length_filter_le _ _) (hashRun_tableRows_len c sw.2)
          constructor
          · intro hr hh
            rcases hmm.1 hr hh with hc | ⟨n, hn, hn2, he⟩
            · exact hdelrows.1 hr hc
            · rw [hdelrows.2.2] at hn
              intro hcon
              have hb : n < w.nextOid + c.sourceRows.length := by
                have h1 := hmm.2.2.2
                rw [hdelrows.2.2] at h1
                omega
              exact hoid n hn hb (by rw [← hcon, he])
          · intro dr hdr hpk hmem
            rcases hmm.2.1 dr hmem with hc | hc
            · exact hdelrows.2.1 dr hc hpk
            · rw [hdelrows.2.2] at hc
              exact absurd hc (not_le.mpr (hdest dr hdr))

/-- Witness for `delete_removes_hash_row_and_matching_pks` at the stale-world
input: after the run no hash row carries "7" and the destination rows whose
primary key is "7" (there are none with that key here; the premise is checked
against the row set) are gone. -/
theorem delete_removes_hash_row_and_matching_pks_witness :
    (updateBody crateTab .ok worldStale =
        .ok ((CrateStatus.UPDATED, none),
          ⟨true, true, [⟨7, "A", "a", none⟩], [⟨"A", "String", 10⟩], some [], 8, []⟩) ∧
        "7" ∈ (runChanges crateTab worldStale).deletes ∧
        (∀ n : Nat, worldStale.nextOid ≤ n →
          n < worldStale.nextOid + crateTab.sourceRows.length → "7" ≠ toString n) ∧
        (∀ dr ∈ worldStale.destRows, dr.oid < worldStale.nextOid)) ∧
      ((∀ hr ∈ ((⟨true, true, [⟨7, "A", "a", none⟩], [⟨"A", "String", 10⟩],
            some [], 8, []⟩ : World).hashTable.getD []), hr.id ≠ "7") ∧
        (∀ dr ∈ worldStale.destRows, dr.pk = "7" →
          dr ∉ (⟨true, true, [⟨7, "A", "a", none⟩], [⟨"A", "String", 10⟩],
            some [], 8, []⟩ : World).destRows)) :=
  ⟨⟨rfl, by decide,
      fun n h1 h2 => absurd (Nat.lt_of_le_of_lt h1 h2) (by decide), by decide⟩,
    delete_removes_hash_row_and_matching_pks crateTab .ok worldStale
      CrateStatus.UPDATED none _ rfl (by decide) "7" (by decide)
      (fun n h1 h2 => absurd (Nat.lt_of_le_of_lt h1 h2) (by decide)) (by decide)⟩

/-! ### C3: idempotence of `update` — classification spec of the hash pass -/

/-- The skip condition of `_hash`'s cursor loop. -/
def skipB (it : Bool) (r : SrcRow) : Bool := !it && r.wkt.isNone

/-- The attribute digest computed for the record streamed at 0-based position
`k` (salt `k + 1`). -/
def attDg (k : Nat) (r : SrcRow) : Digest := createHash r.attrs (k + 1)

/-- The geometry digest computed for the record streamed at 0-based position
`k`. -/
def geomDg (it : Bool) (k : Nat) (r : SrcRow) : Option Digest :=
  if it then none else r.wkt.map (fun x => createHash x (k + 1))

/-- Whether the record at position `k` finds both its digests in the initial
reverse lookups (the negation of the add condition). -/
def matchB (it : Bool) (A0 G0 : List (Digest × String)) (k : Nat) (r : SrcRow) :
    Bool :=
  dictMem (attDg k r) A0 &&
    (match geomDg it k r with
    | some g => dictMem g G0
    | none => true)

/-- Remove from a lookup every entry whose key is in `ks` (the composite of
the pops performed by the unchanged branch). -/
def dropKeys (m : List (Digest × String)) (ks : List Digest) :
    List (Digest × String) :=
  m.filter (fun p => !decide (p.1 ∈ ks))

/-- Classify the records of the stream starting at position `k` against the
initial reverse lookups: add rows, unchanged rows, skipped rows (each tagged
with its position). -/
def classifyRows (it : Bool) (A0 G0 : List (Digest × String)) :
    Nat → List SrcRow →
      List (Nat × SrcRow) × List (Nat × SrcRow) × List (Nat × SrcRow)
  | _, [] => ([], [], [])
  | k, r :: rest =>
    let t := classifyRows it A0 G0 (k + 1) rest
    if skipB it r then (t.1, t.2.1, (k, r) :: t.2.2)
    else if matchB it A0 G0 k r then (t.1, (k, r) :: t.2.1, t.2.2)
    else ((k, r) :: t.1, t.2.1, t.2.2)

theorem dropKeys_nil (m : List (Digest × String)) : dropKeys m [] = m := by
  simp [dropKeys]

theorem dropKeys_pop (m : List (Digest × String)) (ks : List Digest)
    (x : Digest) :
    dictPop (dropKeys m ks) x = dropKeys m (ks ++ [x]) := by
  unfold dictPop dropKeys
  rw [List.filter_filter]
  apply List.filter_congr
  intro p _
  by_cases h1 : p.1 ∈ ks
  · simp [h1]
  · by_cases h2 : p.1 = x
    · simp [h1, h2]
    · simp [h1, h2]

theorem dictMem_dropKeys (m : List (Digest × String)) (ks : List Digest)
    (x : Digest) (hx : x ∉ ks) :
    dictMem x (dropKeys m ks) = dictMem x m := by
  induction m with
  | nil => rfl
  | cons p rest ih =>
    unfold dropKeys at *
    rw [List.filter_cons]
    by_cases h1 : p.1 ∈ ks
    · rw [if_neg (by simp [h1])]
      have hne : (decide (p.1 = x)) = false := by
        simp only [decide_eq_false_iff_not]
        intro he
        exact hx (he ▸ h1)
      unfold dictMem at *
      rw [List.any_cons, hne, ih]
      simp
    · rw [if_pos (by simp [h1])]
      unfold dictMem at *
      rw [List.any_cons, List.any_cons, ih]

theorem dictInsert_fresh {α β : Type} [DecidableEq α]
    (m : List (α × β)) (k : α) (v : β) (h : ∀ p ∈ m, p.1 ≠ k) :
    dictInsert m k v = m ++ [(k, v)] := by
  unfold dictInsert
  rw [List.filter_eq_self.mpr]
  intro p hp
  simpa using h p hp

/-- The salt of a computed geometry digest is the stream position plus one. -/
theorem geomDg_salt (it : Bool) (k : Nat) (r : SrcRow) (g : Digest)
    (hg : geomDg it k r = some g) : g.2 = k + 1 := by
  unfold geomDg at hg
  split at hg
  · simp at hg
  · cases hw : r.wkt with
    | none => rw [hw] at hg; simp at hg
    | some y =>
      rw [hw] at hg
      simp only [Option.map_some'] at hg
      cases hg
      rfl

theorem classifyRows_skip (it : Bool) (A0 G0 : List (Digest × String)) (k : Nat)
    (r : SrcRow) (rest : List SrcRow) (h : skipB it r = true) :
    classifyRows it A0 G0 k (r :: rest) =
      ((classifyRows it A0 G0 (k + 1) rest).1,
        (classifyRows it A0 G0 (k + 1) rest).2.1,
        (k, r) :: (classifyRows it A0 G0 (k + 1) rest).2.2) := by
  rw [classifyRows]
  rw [if_pos h]

theorem classifyRows_unch (it : Bool) (A0 G0 : List (Digest × String)) (k : Nat)
    (r : SrcRow) (rest : List SrcRow) (h : skipB it r = false)
    (hm : matchB it A0 G0 k r = true) :
    classifyRows it A0 G0 k (r :: rest) =
      ((classifyRows it A0 G0 (k + 1) rest).1,
        (k, r) :: (classifyRows it A0 G0 (k + 1) rest).2.1,
        (classifyRows it A0 G0 (k + 1) rest).2.2) := by
  rw [classifyRows]
  rw [if_neg (by rw [h]; exact Bool.false_ne_true), if_pos hm]

theorem classifyRows_add (it : Bool) (A0 G0 : List (Digest × String)) (k : Nat)
    (r : SrcRow) (rest : List SrcRow) (h : skipB it r = false)
    (hm : matchB it A0 G0 k r = false) :
    classifyRows it A0 G0 k (r :: rest) =
      ((k, r) :: (classifyRows it A0 G0 (k + 1) rest).1,
        (classifyRows it A0 G0 (k + 1) rest).2.1,
        (classifyRows it A0 G0 (k + 1) rest).2.2) := by
  rw [classifyRows]
  rw [if_neg (by rw [h]; exact Bool.false_ne_true),
    if_neg (by rw [hm]; exact Bool.false_ne_true)]

theorem matchB_dropKeys (it : Bool) (A0 G0 : List (Digest × String))
    (popA popG : List Digest) (k : Nat) (r : SrcRow)
    (hpa : ∀ d ∈ popA, d.2 ≤ k) (hpg : ∀ d ∈ popG, d.2 ≤ k) :
    matchB it (dropKeys A0 popA) (dropKeys G0 popG) k r = matchB it A0 G0 k r := by
  unfold matchB
  rw [dictMem_dropKeys A0 popA (attDg k r)
    (fun hmem => by have := hpa _ hmem; simp [attDg, createHash] at this)]
  cases hg : geomDg it k r with
  | none => rfl
  | some g =>
    dsimp only
    rw [dictMem_dropKeys G0 popG g
      (fun hmem => by
        have h3 := hpg _ hmem
        have h4 := geomDg_salt it k r g hg
        omega)]

/-- One iteration of the cursor loop, phrased with the classification
predicates: skip, unchanged (pop and record), or add (record and, when
reprojecting, emit). -/
theorem hashStep_eq (it rp : Bool) (pkName : String) (s : HashState)
    (r : SrcRow) :
    hashStep it rp pkName s r =
      if skipB it r then
        { s with
          totalRows := s.totalRows + 1 - 1
          salt := s.salt + 1
          warnings := s.warnings ++
            ["Empty geometry found in " ++ pkName ++ ": " ++ r.pk] }
      else if matchB it s.attL s.geomL s.salt r then
        { s with
          totalRows := s.totalRows + 1
          salt := s.salt + 1
          attL := dictPop s.attL (attDg s.salt r)
          geomL :=
            match geomDg it s.salt r with
            | some g => dictPop s.geomL g
            | none => s.geomL
          unchanged := dictInsert s.unchanged r.pk
            (attDg s.salt r, geomDg it s.salt r) }
      else
        { s with
          totalRows := s.totalRows + 1
          salt := s.salt + 1
          inserted := if rp then s.inserted ++ [r] else s.inserted
          adds := dictInsert s.adds r.pk (attDg s.salt r, geomDg it s.salt r) } := by
  by_cases h1 : skipB it r = true
  · have h1r : (!it && r.wkt.isNone) = true := h1
    rw [if_pos h1]
    unfold hashStep
    rw [if_pos h1r]
  · rw [Bool.not_eq_true] at h1
    have h1r : (!it && r.wkt.isNone) = false := h1
    rw [if_neg (by rw [h1]; exact Bool.false_ne_true)]
    unfold hashStep
    rw [if_neg (by rw [h1r]; exact Bool.false_ne_true)]
    dsimp only
    have hcond : (!dictMem (createHash r.attrs (s.salt + 1)) s.attL ||
        (match (if it = true then none
          else Option.map (fun x => createHash x (s.salt + 1)) r.wkt) with
        | some g => !dictMem g s.geomL
        | none => false)) = !(matchB it s.attL s.geomL s.salt r) := by
      unfold matchB attDg geomDg
      cases hw : (if it = true then none
          else Option.map (fun x => createHash x (s.salt + 1)) r.wkt) with
      | none =>
        cases hA : dictMem (createHash r.attrs (s.salt + 1)) s.attL <;> rfl
      | some g =>
        cases hA : dictMem (createHash r.attrs (s.salt + 1)) s.attL <;>
          cases hG : dictMem g s.geomL <;> rfl
    rw [hcond]
    cases hm : matchB it s.attL s.geomL s.salt r with
    | true => rfl
    | false => rfl

/-- The characterization of `_hash`'s cursor loop: starting from partially
popped lookups and accumulators, the loop pops exactly the digests of the
matched records, appends the classified add and unchanged entries in stream
order, counts the non-skipped records, collects the reprojection rows for the
adds, and logs one warning per skipped record. -/
theorem hashLoop_spec (it rp : Bool) (pkName : String)
    (A0 G0 : List (Digest × String)) (rs : List SrcRow) (k : Nat)
    (popA popG : List Digest)
    (adds0 unch0 : List (String × (Digest × Option Digest)))
    (ins0 : List SrcRow) (warn0 : List String) (tot0 : Nat)
    (hpa : ∀ d ∈ popA, d.2 ≤ k) (hpg : ∀ d ∈ popG, d.2 ≤ k)
    (hnodup : (rs.map (fun r => r.pk)).Nodup)
    (hdisA : ∀ r ∈ rs, ∀ p ∈ adds0, p.1 ≠ r.pk)
    (hdisU : ∀ r ∈ rs, ∀ p ∈ unch0, p.1 ≠ r.pk) :
    hashLoop it rp pkName
      ⟨dropKeys A0 popA, dropKeys G0 popG, adds0, unch0, tot0, k, ins0, warn0⟩
      rs =
      ⟨dropKeys A0 (popA ++ (classifyRows it A0 G0 k rs).2.1.map
          (fun p => attDg p.1 p.2)),
        dropKeys G0 (popG ++ (classifyRows it A0 G0 k rs).2.1.filterMap
          (fun p => geomDg it p.1 p.2)),
        adds0 ++ (classifyRows it A0 G0 k rs).1.map
          (fun p => (p.2.pk, (attDg p.1 p.2, geomDg it p.1 p.2))),
        unch0 ++ (classifyRows it A0 G0 k rs).2.1.map
          (fun p => (p.2.pk, (attDg p.1 p.2, geomDg it p.1 p.2))),
        tot0 + (classifyRows it A0 G0 k rs).1.length +
          (classifyRows it A0 G0 k rs).2.1.length,
        k + rs.length,
        ins0 ++ (if rp then (classifyRows it A0 G0 k rs).1.map (fun p => p.2)
          else []),
        warn0 ++ (classifyRows it A0 G0 k rs).2.2.map
          (fun p => "Empty geometry found in " ++ pkName ++ ": " ++ p.2.pk)⟩ := by
  induction rs generalizing k popA popG adds0 unch0 ins0 warn0 tot0 with
  | nil =>
    rw [hashLoop, classifyRows]
    simp
  | cons r rest ih =>
    have hn := hnodup
    rw [List.map_cons, List.nodup_cons] at hn
    have hnodup2 : (rest.map (fun r => r.pk)).Nodup := hn.2
    have hhead : ∀ q ∈ rest, q.pk ≠ r.pk := by
      intro q hq he
      exact hn.1 (he ▸ List.mem_map_of_mem _ hq)
    rw [hashLoop, hashStep_eq]
    dsimp only
    by_cases hskip : skipB it r = true
    · rw [classifyRows_skip it A0 G0 k r rest hskip, if_pos hskip]
      have htot : tot0 + 1 - 1 = tot0 := by omega
      rw [htot]
      rw [ih (k + 1) popA popG adds0 unch0 ins0 _ tot0
        (fun d hd => (hpa d hd).trans (by omega))
        (fun d hd => (hpg d hd).trans (by omega)) hnodup2
        (fun q hq p hp => hdisA q (List.mem_cons_of_mem _ hq) p hp)
        (fun q hq p hp => hdisU q (List.mem_cons_of_mem _ hq) p hp)]
      dsimp only
      rw [HashState.mk.injEq]
      refine ⟨rfl, rfl, rfl, rfl, rfl, by simp only [List.length_cons]; omega, rfl, by simp⟩
    · rw [Bool.not_eq_true] at hskip
      rw [if_neg (by rw [hskip]; exact Bool.false_ne_true)]
      by_cases hmatch : matchB it A0 G0 k r = true
      · rw [classifyRows_unch it A0 G0 k r rest hskip hmatch]
        have hmatch2 : matchB it (dropKeys A0 popA) (dropKeys G0 popG) k r =
            true := by
          rw [matchB_dropKeys it A0 G0 popA popG k r hpa hpg]
          exact hmatch
        rw [if_pos hmatch2, dropKeys_pop A0 popA (attDg k r),
          dictInsert_fresh unch0 r.pk _
            (fun p hp => hdisU r (List.mem_cons_self r rest) p hp)]
        have hgeom : (match geomDg it k r with
            | some g => dictPop (dropKeys G0 popG) g
            | none => dropKeys G0 popG) =
            dropKeys G0 (popG ++
              (match geomDg it k r with | some g => [g] | none => [])) := by
          cases hg : geomDg it k r with
          | none => simp [dropKeys_pop]
          | some g => simp [dropKeys_pop]
        rw [hgeom]
        rw [ih (k + 1) (popA ++ [attDg k r])
          (popG ++ (match geomDg it k r with | some g => [g] | none => []))
          adds0 (unch0 ++ [(r.pk, (attDg k r, geomDg it k r))]) ins0 warn0
          (tot0 + 1)
          ?_ ?_ hnodup2
          (fun q hq p hp => hdisA q (List.mem_cons_of_mem _ hq) p hp)
          ?_]
        · dsimp only
          rw [HashState.mk.injEq]
          refine ⟨by rw [List.append_assoc]; rfl, ?_, rfl, ?_,
            by simp only [List.length_cons]; omega,
            by simp only [List.length_cons]; omega, rfl, rfl⟩
          · rw [List.append_assoc]
            cases hg : geomDg it k r with
            | none => simp [List.filterMap_cons, hg]
            | some g => simp [List.filterMap_cons, hg]
          · rw [List.append_assoc]
            rfl
        · intro d hd
          rcases List.mem_append.mp hd with h1 | h1
          · exact (hpa d h1).trans (by omega)
          · have hd2 : d = attDg k r := by simpa using h1
            rw [hd2]
            simp [attDg, createHash]
        · intro d hd
          rcases List.mem_append.mp hd with h1 | h1
          · exact (hpg d h1).trans (by omega)
          · cases hg : geomDg it k r with
            | none => rw [hg] at h1; cases h1
            | some g =>
              rw [hg] at h1
              have hd2 : d = g := by simpa using h1
              rw [hd2, geomDg_salt it k r g hg]
        · intro q hq p hp
          rcases List.mem_append.mp hp with h1 | h1
          · exact hdisU q (List.mem_cons_of_mem _ hq) p h1
          · have hp1 : p.1 = r.pk := by
              have hp2 : p = (r.pk, (attDg k r, geomDg it k r)) := by
                simpa using h1
              rw [hp2]
            rw [hp1]
            exact fun he => hhead q hq he.symm
      · rw [Bool.not_eq_true] at hmatch
        rw [classifyRows_add it A0 G0 k r rest hskip hmatch]
        have hmatch2 : matchB it (dropKeys A0 popA) (dropKeys G0 popG) k r =
            false := by
          rw [matchB_dropKeys it A0 G0 popA popG k r hpa hpg]
          exact hmatch
        rw [if_neg (by rw [hmatch2]; exact Bool.false_ne_true),
          dictInsert_fresh adds0 r.pk _
            (fun p hp => hdisA r (List.mem_cons_self r rest) p hp)]
        have hdisA2 : ∀ q ∈ rest,
            ∀ p ∈ adds0 ++ [(r.pk, (attDg k r, geomDg it k r))], p.1 ≠ q.pk := by
          intro q hq p hp
          rcases List.mem_append.mp hp with h1 | h1
          · exact hdisA q (List.mem_cons_of_mem _ hq) p h1
          · have hp1 : p.1 = r.pk := by
              have hp2 : p = (r.pk, (attDg k r, geomDg it k r)) := by
                simpa using h1
              rw [hp2]
            rw [hp1]
            exact fun he => hhead q hq he.symm
        by_cases hrp : rp = true
        · rw [if_pos hrp]
          rw [ih (k + 1) popA popG
            (adds0 ++ [(r.pk, (attDg k r, geomDg it k r))]) unch0
            (ins0 ++ [r]) warn0 (tot0 + 1)
            (fun d hd => (hpa d hd).trans (by omega))
            (fun d hd => (hpg d hd).trans (by omega)) hnodup2
            hdisA2
            (fun q hq p hp => hdisU q (List.mem_cons_of_mem _ hq) p hp)]
          dsimp only
          rw [HashState.mk.injEq]
          refine ⟨rfl, rfl, ?_, rfl, by simp only [List.length_cons]; omega, by simp only [List.length_cons]; omega, ?_, rfl⟩
          · rw [List.append_assoc]
            rfl
          · rw [if_pos hrp, if_pos hrp, List.append_assoc]
            rfl
        · rw [if_neg hrp]
          rw [ih (k + 1) popA popG
            (adds0 ++ [(r.pk, (attDg k r, geomDg it k r))]) unch0
            ins0 warn0 (tot0 + 1)
            (fun d hd => (hpa d hd).trans (by omega))
            (fun d hd => (hpg d hd).trans (by omega)) hnodup2
            hdisA2
            (fun q hq p hp => hdisU q (List.mem_cons_of_mem _ hq) p hp)]
          dsimp only
          rw [HashState.mk.injEq]
          refine ⟨rfl, rfl, ?_, rfl, by simp only [List.length_cons]; omega, by simp only [List.length_cons]; omega, ?_, rfl⟩
          · rw [List.append_assoc]
            rfl
          · rw [if_neg hrp, if_neg hrp]

/-! ### C3: the canonical hash-index table and the steady state -/

/-- The stream records that survive the null-geometry skip test, each tagged
with its 0-based stream position. -/
def activeRows (it : Bool) : Nat → List SrcRow → List (Nat × SrcRow)
  | _, [] => []
  | k, r :: rest =>
    if skipB it r then activeRows it (k + 1) rest
    else (k, r) :: activeRows it (k + 1) rest

/-- The skipped stream records, each tagged with its 0-based position. -/
def skippedRows (it : Bool) : Nat → List SrcRow → List (Nat × SrcRow)
  | _, [] => []
  | k, r :: rest =>
    if skipB it r then (k, r) :: skippedRows it (k + 1) rest
    else skippedRows it (k + 1) rest

/-- The hash-index rows written by the add phase for a run of active records,
with consecutive destination oids starting at `n`. -/
def canonHashRows (it : Bool) : Nat → List (Nat × SrcRow) → List HashRow
  | _, [] => []
  | n, p :: rest =>
    ⟨toString n, some (attDg p.1 p.2), geomDg it p.1 p.2⟩ ::
      canonHashRows it (n + 1) rest

/-- The attribute reverse lookup built from a canonical table. -/
def canonAtt : Nat → List (Nat × SrcRow) → List (Digest × String)
  | _, [] => []
  | n, p :: rest => (attDg p.1 p.2, toString n) :: canonAtt (n + 1) rest

/-- The geometry reverse lookup built from a canonical table. -/
def canonGeom (it : Bool) : Nat → List (Nat × SrcRow) → List (Digest × String)
  | _, [] => []
  | n, p :: rest =>
    match geomDg it p.1 p.2 with
    | some g => (g, toString n) :: canonGeom it (n + 1) rest
    | none => canonGeom it (n + 1) rest

/-- The attribute entries of a hash-index table, in table order. -/
def attEntries (T : List HashRow) : List (Digest × String) :=
  T.filterMap (fun hr => hr.att.map (fun a => (a, hr.id)))

/-- The geometry entries of a hash-index table, in table order. -/
def geomEntries (T : List HashRow) : List (Digest × String) :=
  T.filterMap (fun hr => hr.geom.map (fun g => (g, hr.id)))

theorem activeRows_mem_rows (it : Bool) (k : Nat) (rs : List SrcRow)
    (p : Nat × SrcRow) : p ∈ activeRows it k rs → p.2 ∈ rs := by
  induction rs generalizing k with
  | nil => intro h; cases h
  | cons r rest ih =>
    intro h
    rw [activeRows] at h
    by_cases hs : skipB it r = true
    · rw [if_pos hs] at h
      exact List.mem_cons_of_mem _ (ih (k + 1) h)
    · rw [if_neg hs] at h
      rcases List.mem_cons.mp h with h1 | h1
      · rw [h1]; exact List.mem_cons_self _ _
      · exact List.mem_cons_of_mem _ (ih (k + 1) h1)

theorem activeRows_not_skipped (it : Bool) (k : Nat) (rs : List SrcRow)
    (p : Nat × SrcRow) : p ∈ activeRows it k rs → skipB it p.2 = false := by
  induction rs generalizing k with
  | nil => intro h; cases h
  | cons r rest ih =>
    intro h
    rw [activeRows] at h
    by_cases hs : skipB it r = true
    · rw [if_pos hs] at h
      exact ih (k + 1) h
    · rw [if_neg hs] at h
      rcases List.mem_cons.mp h with h1 | h1
      · rw [h1]
        exact Bool.not_eq_true _ ▸ Bool.eq_false_iff.mpr hs
      · exact ih (k + 1) h1

theorem activeRows_pos_ge (it : Bool) (k : Nat) (rs : List SrcRow)
    (p : Nat × SrcRow) : p ∈ activeRows it k rs → k ≤ p.1 := by
  induction rs generalizing k with
  | nil => intro h; cases h
  | cons r rest ih =>
    intro h
    rw [activeRows] at h
    by_cases hs : skipB it r = true
    · rw [if_pos hs] at h
      exact (by omega : k ≤ k + 1).trans (ih (k + 1) h)
    · rw [if_neg hs] at h
      rcases List.mem_cons.mp h with h1 | h1
      · rw [h1]
      · exact (by omega : k ≤ k + 1).trans (ih (k + 1) h1)

theorem activeRows_pos_nodup (it : Bool) (k : Nat) (rs : List SrcRow) :
    ((activeRows it k rs).map (fun p => p.1)).Nodup := by
  induction rs generalizing k with
  | nil => simp [activeRows]
  | cons r rest ih =>
    rw [activeRows]
    by_cases hs : skipB it r = true
    · rw [if_pos hs]
      exact ih (k + 1)
    · rw [if_neg hs, List.map_cons, List.nodup_cons]
      refine ⟨?_, ih (k + 1)⟩
      intro hmem
      rcases List.mem_map.mp hmem with ⟨q, hq, hq1⟩
      have := activeRows_pos_ge it (k + 1) rest q hq
      omega

/-- The active rows of the stream form a sublist of the stream. -/
theorem activeRows_sublist (it : Bool) (k : Nat) (rs : List SrcRow) :
    List.Sublist ((activeRows it k rs).map (fun p => p.2)) rs := by
  induction rs generalizing k with
  | nil => simp [activeRows]
  | cons r rest ih =>
    rw [activeRows]
    by_cases hs : skipB it r = true
    · rw [if_pos hs]
      exact (ih (k + 1)).cons r
    · rw [if_neg hs, List.map_cons]
      exact (ih (k + 1)).cons₂ r

theorem activeRows_pk_nodup (it : Bool) (k : Nat) (rs : List SrcRow)
    (h : (rs.map (fun r => r.pk)).Nodup) :
    ((activeRows it k rs).map (fun p => p.2.pk)).Nodup := by
  have h1 : List.Sublist (((activeRows it k rs).map (fun p => p.2)).map
      (fun r => r.pk)) (rs.map (fun r => r.pk)) :=
    (activeRows_sublist it k rs).map _
  rw [List.map_map] at h1
  exact h.sublist h1

/-- Against empty reverse lookups every non-skipped record is an add. -/
theorem classifyRows_empty_lookups (it : Bool) (k : Nat) (rs : List SrcRow) :
    classifyRows it [] [] k rs =
      (activeRows it k rs, [], skippedRows it k rs) := by
  induction rs generalizing k with
  | nil => rfl
  | cons r rest ih =>
    by_cases hs : skipB it r = true
    · rw [classifyRows_skip it [] [] k r rest hs, ih (k + 1),
        activeRows, skippedRows, if_pos hs, if_pos hs]
    · rw [Bool.not_eq_true] at hs
      have hm : matchB it [] [] k r = false := rfl
      rw [classifyRows_add it [] [] k r rest hs hm, ih (k + 1),
        activeRows, skippedRows,
        if_neg (by rw [hs]; exact Bool.false_ne_true),
        if_neg (by rw [hs]; exact Bool.false_ne_true)]

/-- When every active record finds its digests, every non-skipped record is
unchanged. -/
theorem classifyRows_all_matched (it : Bool) (A0 G0 : List (Digest × String))
    (k : Nat) (rs : List SrcRow)
    (h : ∀ p ∈ activeRows it k rs, matchB it A0 G0 p.1 p.2 = true) :
    classifyRows it A0 G0 k rs =
      ([], activeRows it k rs, skippedRows it k rs) := by
  induction rs generalizing k with
  | nil => rfl
  | cons r rest ih =>
    by_cases hs : skipB it r = true
    · have h2 : ∀ p ∈ activeRows it (k + 1) rest,
          matchB it A0 G0 p.1 p.2 = true := by
        intro p hp
        refine h p ?_
        rw [activeRows, if_pos hs]
        exact hp
      rw [classifyRows_skip it A0 G0 k r rest hs, ih (k + 1) h2,
        activeRows, skippedRows, if_pos hs, if_pos hs]
    · rw [Bool.not_eq_true] at hs
      have hsne : ¬(skipB it r = true) := by
        rw [hs]; exact Bool.false_ne_true
      have hmem : (k, r) ∈ activeRows it k (r :: rest) := by
        rw [activeRows, if_neg hsne]
        exact List.mem_cons_self _ _
      have h2 : ∀ p ∈ activeRows it (k + 1) rest,
          matchB it A0 G0 p.1 p.2 = true := by
        intro p hp
        refine h p ?_
        rw [activeRows, if_neg hsne]
        exact List.mem_cons_of_mem _ hp
      rw [classifyRows_unch it A0 G0 k r rest hs (h (k, r) hmem), ih (k + 1) h2,
        activeRows, skippedRows, if_neg hsne, if_neg hsne]

theorem dictMem_false_of_not_key {α β : Type} [DecidableEq α] (k : α)
    (m : List (α × β)) (h : k ∉ m.map (fun p => p.1)) : dictMem k m = false := by
  rw [Bool.eq_false_iff]
  intro hm
  rcases (dictMem_iff k m).mp hm with ⟨v, hv⟩
  exact h (List.mem_map.mpr ⟨(k, v), hv, rfl⟩)

theorem dictMem_true_of_key {α β : Type} [DecidableEq α] (k : α)
    (m : List (α × β)) (h : k ∈ m.map (fun p => p.1)) : dictMem k m = true := by
  rcases List.mem_map.mp h with ⟨p, hp, hp1⟩
  exact (dictMem_iff k m).mpr ⟨p.2, by rw [← hp1]; exact hp⟩

/-- When every entry key is among the popped keys, the lookup is exhausted. -/
theorem dropKeys_all (m : List (Digest × String)) (ks : List Digest)
    (h : ∀ p ∈ m, p.1 ∈ ks) : dropKeys m ks = [] := by
  unfold dropKeys
  rw [List.filter_eq_nil]
  intro p hp
  simp [h p hp]

theorem attEntries_canonHashRows (it : Bool) (n : Nat)
    (ps : List (Nat × SrcRow)) :
    attEntries (canonHashRows it n ps) = canonAtt n ps := by
  induction ps generalizing n with
  | nil => rfl
  | cons p rest ih =>
    rw [canonHashRows, canonAtt, attEntries, List.filterMap_cons]
    dsimp only
    rw [Option.map_some']
    rw [← attEntries, ih (n + 1)]

theorem geomEntries_canonHashRows (it : Bool) (n : Nat)
    (ps : List (Nat × SrcRow)) :
    geomEntries (canonHashRows it n ps) = canonGeom it n ps := by
  induction ps generalizing n with
  | nil => rfl
  | cons p rest ih =>
    rw [canonHashRows, canonGeom, geomEntries, List.filterMap_cons]
    dsimp only
    cases hg : geomDg it p.1 p.2 with
    | none =>
      rw [Option.map_none']
      rw [← geomEntries, ih (n + 1)]
    | some g =>
      rw [Option.map_some']
      rw [← geomEntries, ih (n + 1)]

theorem canonAtt_keys (n : Nat) (ps : List (Nat × SrcRow)) :
    (canonAtt n ps).map (fun p => p.1) = ps.map (fun p => attDg p.1 p.2) := by
  induction ps generalizing n with
  | nil => rfl
  | cons p rest ih =>
    rw [canonAtt, List.map_cons, List.map_cons, ih (n + 1)]

theorem canonAtt_keys_nodup (n : Nat) (ps : List (Nat × SrcRow))
    (h : (ps.map (fun p => p.1)).Nodup) :
    ((canonAtt n ps).map (fun p => p.1)).Nodup := by
  rw [canonAtt_keys]
  have hsalt : (ps.map (fun p => (attDg p.1 p.2).2)).Nodup := by
    have he : ps.map (fun p => (attDg p.1 p.2).2) =
        (ps.map (fun p => p.1)).map (fun x => x + 1) := by
      simp [attDg, createHash]
    rw [he]
    exact h.map (fun a b hab => by omega)
  have he2 : ps.map (fun p => (attDg p.1 p.2).2) =
      (ps.map (fun p => attDg p.1 p.2)).map (fun d => d.2) := by
    simp
  rw [he2] at hsalt
  exact hsalt.of_map

theorem canonGeom_key_of_mem (it : Bool) (n : Nat) (ps : List (Nat × SrcRow))
    (q : Digest × String) :
    q ∈ canonGeom it n ps → ∃ p ∈ ps, geomDg it p.1 p.2 = some q.1 := by
  induction ps generalizing n with
  | nil => intro h; cases h
  | cons p rest ih =>
    intro h
    rw [canonGeom] at h
    cases hg : geomDg it p.1 p.2 with
    | none =>
      rw [hg] at h
      rcases ih (n + 1) h with ⟨p2, hp2, hg2⟩
      exact ⟨p2, List.mem_cons_of_mem _ hp2, hg2⟩
    | some g =>
      rw [hg] at h
      rcases List.mem_cons.mp h with h1 | h1
      · exact ⟨p, List.mem_cons_self _ _, by rw [hg, h1]⟩
      · rcases ih (n + 1) h1 with ⟨p2, hp2, hg2⟩
        exact ⟨p2, List.mem_cons_of_mem _ hp2, hg2⟩

theorem canonGeom_keys_nodup (it : Bool) (n : Nat) (ps : List (Nat × SrcRow)) :
    (ps.map (fun p => p.1)).Nodup →
      ((canonGeom it n ps).map (fun p => p.1)).Nodup := by
  induction ps generalizing n with
  | nil => intro h; simp [canonGeom]
  | cons p rest ih =>
    intro h
    rw [List.map_cons, List.nodup_cons] at h
    rw [canonGeom]
    cases hg : geomDg it p.1 p.2 with
    | none => exact ih (n + 1) h.2
    | some g =>
      rw [List.map_cons, List.nodup_cons]
      refine ⟨?_, ih (n + 1) h.2⟩
      intro hmem
      rcases List.mem_map.mp hmem with ⟨q, hq, hq1⟩
      rcases canonGeom_key_of_mem it (n + 1) rest q hq with ⟨p2, hp2, hg2⟩
      have hs1 : g.2 = p.1 + 1 := geomDg_salt it p.1 p.2 g hg
      have hs2 : q.1.2 = p2.1 + 1 := geomDg_salt it p2.1 p2.2 q.1 hg2
      have hq2 : q.1 = g := hq1
      rw [hq2] at hs2
      have hpos : p.1 = p2.1 := by omega
      exact h.1 (List.mem_map.mpr ⟨p2, hp2, hpos.symm⟩)

theorem canonAtt_mem (n : Nat) (ps : List (Nat × SrcRow)) (p : Nat × SrcRow) :
    p ∈ ps → dictMem (attDg p.1 p.2) (canonAtt n ps) = true := by
  induction ps generalizing n with
  | nil => intro h; cases h
  | cons q rest ih =>
    intro h
    rw [canonAtt]
    unfold dictMem
    rw [List.any_cons]
    rcases List.mem_cons.mp h with h1 | h1
    · rw [h1]
      simp
    · have := ih (n + 1) h1
      unfold dictMem at this
      rw [this]
      simp

theorem canonGeom_mem (it : Bool) (n : Nat) (ps : List (Nat × SrcRow))
    (p : Nat × SrcRow) (g : Digest) :
    p ∈ ps → geomDg it p.1 p.2 = some g →
      dictMem g (canonGeom it n ps) = true := by
  induction ps generalizing n with
  | nil => intro h; cases h
  | cons q rest ih =>
    intro h hg
    rw [canonGeom]
    rcases List.mem_cons.mp h with h1 | h1
    · rw [h1] at hg
      rw [hg]
      unfold dictMem
      rw [List.any_cons]
      simp
    · cases hgq : geomDg it q.1 q.2 with
      | none => exact ih (n + 1) h1 hg
      | some g2 =>
        have := ih (n + 1) h1 hg
        unfold dictMem at this ⊢
        rw [List.any_cons, this]
        simp

theorem canonAtt_key_of_mem (n : Nat) (ps : List (Nat × SrcRow))
    (q : Digest × String) :
    q ∈ canonAtt n ps → ∃ p ∈ ps, q.1 = attDg p.1 p.2 := by
  induction ps generalizing n with
  | nil => intro h; cases h
  | cons p rest ih =>
    intro h
    rw [canonAtt] at h
    rcases List.mem_cons.mp h with h1 | h1
    · exact ⟨p, List.mem_cons_self _ _, by rw [h1]⟩
    · rcases ih (n + 1) h1 with ⟨p2, hp2, he⟩
      exact ⟨p2, List.mem_cons_of_mem _ hp2, he⟩

/-- The fold of `_get_hash_lookups` appends the table entries to the
accumulators when all keys are fresh and pairwise distinct. -/
theorem lookups_foldl (T : List HashRow) (a g : List (Digest × String))
    (h1 : ∀ q ∈ attEntries T, ∀ p ∈ a, p.1 ≠ q.1)
    (h2 : ((attEntries T).map (fun p => p.1)).Nodup)
    (h3 : ∀ q ∈ geomEntries T, ∀ p ∈ g, p.1 ≠ q.1)
    (h4 : ((geomEntries T).map (fun p => p.1)).Nodup) :
    T.foldl lookupStep (a, g) = (a ++ attEntries T, g ++ geomEntries T) := by
  induction T generalizing a g with
  | nil => simp [attEntries, geomEntries]
  | cons hr rest ih =>
    obtain ⟨hid, hatt, hgeom⟩ := hr
    rw [List.foldl_cons]
    cases hatt with
    | none =>
      have haE : attEntries (⟨hid, none, hgeom⟩ :: rest) = attEntries rest := by
        cases hgeom <;> rfl
      rw [haE] at h1 h2 ⊢
      cases hgeom with
      | none =>
        have hgE : geomEntries (⟨hid, none, none⟩ :: rest) =
            geomEntries rest := rfl
        rw [hgE] at h3 h4 ⊢
        exact ih a g h1 h2 h3 h4
      | some d2 =>
        have hgE : geomEntries (⟨hid, none, some d2⟩ :: rest) =
            (d2, hid) :: geomEntries rest := rfl
        rw [hgE] at h3 h4 ⊢
        rw [List.map_cons, List.nodup_cons] at h4
        have hfresh : ∀ p ∈ g, p.1 ≠ d2 := fun p hp =>
          h3 (d2, hid) (List.mem_cons_self _ _) p hp
        have hstep : lookupStep (a, g) ⟨hid, none, some d2⟩ =
            (a, dictInsert g d2 hid) := rfl
        rw [hstep, dictInsert_fresh g d2 hid hfresh]
        have ihr := ih a (g ++ [(d2, hid)]) h1 h2
          (by
            intro q hq p hp
            rcases List.mem_append.mp hp with hp1 | hp1
            · exact h3 q (List.mem_cons_of_mem _ hq) p hp1
            · have hpd : p = (d2, hid) := by simpa using hp1
              rw [hpd]
              intro he
              exact h4.1 (he ▸ List.mem_map.mpr ⟨q, hq, rfl⟩))
          h4.2
        rw [ihr, List.append_assoc]
        rfl
    | some d =>
      have haE : attEntries (⟨hid, some d, hgeom⟩ :: rest) =
          (d, hid) :: attEntries rest := by
        cases hgeom <;> rfl
      rw [haE] at h1 h2 ⊢
      rw [List.map_cons, List.nodup_cons] at h2
      have hfreshA : ∀ p ∈ a, p.1 ≠ d := fun p hp =>
        h1 (d, hid) (List.mem_cons_self _ _) p hp
      have h1r : ∀ q ∈ attEntries rest, ∀ p ∈ a ++ [(d, hid)], p.1 ≠ q.1 := by
        intro q hq p hp
        rcases List.mem_append.mp hp with hp1 | hp1
        · exact h1 q (List.mem_cons_of_mem _ hq) p hp1
        · have hpd : p = (d, hid) := by simpa using hp1
          rw [hpd]
          intro he
          exact h2.1 (he ▸ List.mem_map.mpr ⟨q, hq, rfl⟩)
      cases hgeom with
      | none =>
        have hgE : geomEntries (⟨hid, some d, none⟩ :: rest) =
            geomEntries rest := rfl
        rw [hgE] at h3 h4 ⊢
        have hstep : lookupStep (a, g) ⟨hid, some d, none⟩ =
            (dictInsert a d hid, g) := rfl
        rw [hstep, dictInsert_fresh a d hid hfreshA]
        rw [ih (a ++ [(d, hid)]) g h1r h2.2 h3 h4, List.append_assoc]
        rfl
      | some d2 =>
        have hgE : geomEntries (⟨hid, some d, some d2⟩ :: rest) =
            (d2, hid) :: geomEntries rest := rfl
        rw [hgE] at h3 h4 ⊢
        rw [List.map_cons, List.nodup_cons] at h4
        have hfreshG : ∀ p ∈ g, p.1 ≠ d2 := fun p hp =>
          h3 (d2, hid) (List.mem_cons_self _ _) p hp
        have hstep : lookupStep (a, g) ⟨hid, some d, some d2⟩ =
            (dictInsert a d hid, dictInsert g d2 hid) := rfl
        rw [hstep, dictInsert_fresh a d hid hfreshA,
          dictInsert_fresh g d2 hid hfreshG]
        have ihr := ih (a ++ [(d, hid)]) (g ++ [(d2, hid)]) h1r h2.2
          (by
            intro q hq p hp
            rcases List.mem_append.mp hp with hp1 | hp1
            · exact h3 q (List.mem_cons_of_mem _ hq) p hp1
            · have hpd : p = (d2, hid) := by simpa using hp1
              rw [hpd]
              intro he
              exact h4.1 (he ▸ List.mem_map.mpr ⟨q, hq, rfl⟩))
          h4.2
        rw [ihr, List.append_assoc, List.append_assoc]
        rfl

/-- `_get_hash_lookups` returns the table entries when their keys are
pairwise distinct. -/
theorem getHashLookups_eq (T : List HashRow)
    (h2 : ((attEntries T).map (fun p => p.1)).Nodup)
    (h4 : ((geomEntries T).map (fun p => p.1)).Nodup) :
    getHashLookups T = (attEntries T, geomEntries T) := by
  unfold getHashLookups
  have := lookups_foldl T [] [] (by intro q hq p hp; cases hp) h2
    (by intro q hq p hp; cases hp) h4
  simpa using this

theorem skipped_pk_not_active (it : Bool) (k : Nat) (rs : List SrcRow)
    (r : SrcRow) :
    (rs.map (fun x => x.pk)).Nodup → r ∈ rs → skipB it r = true →
      r.pk ∉ (activeRows it k rs).map (fun p => p.2.pk) := by
  induction rs generalizing k with
  | nil => intro _ h; cases h
  | cons q rest ih =>
    intro hn hr hskip
    rw [List.map_cons, List.nodup_cons] at hn
    rw [activeRows]
    rcases List.mem_cons.mp hr with h1 | h1
    · rw [if_pos (h1 ▸ hskip)]
      intro hmem
      rcases List.mem_map.mp hmem with ⟨p, hp, hpk⟩
      have hpsub := activeRows_mem_rows it (k + 1) rest p hp
      refine hn.1 ?_
      rw [← h1, ← hpk]
      exact List.mem_map.mpr ⟨p.2, hpsub, rfl⟩
    · by_cases hq : skipB it q = true
      · rw [if_pos hq]
        exact ih (k + 1) hn.2 h1 hskip
      · rw [if_neg hq, List.map_cons]
        intro hmem
        rcases List.mem_cons.mp hmem with h2 | h2
        · exact hn.1 (h2 ▸ List.mem_map.mpr ⟨r, h1, rfl⟩)
        · exact ih (k + 1) hn.2 h1 hskip h2

/-- With distinct primary keys the source stream filtered to the add keys is
exactly the active-record stream. -/
theorem filter_adds (it : Bool) (adds : List (String × (Digest × Option Digest)))
    (k : Nat) (rs : List SrcRow) :
    (rs.map (fun x => x.pk)).Nodup →
    (∀ p ∈ activeRows it k rs, dictMem p.2.pk adds = true) →
    (∀ r ∈ rs, skipB it r = true → dictMem r.pk adds = false) →
    rs.filter (fun r => dictMem r.pk adds) =
      (activeRows it k rs).map (fun p => p.2) := by
  induction rs generalizing k with
  | nil => intro _ _ _; rfl
  | cons r rest ih =>
    intro hn h1 h2
    rw [List.map_cons, List.nodup_cons] at hn
    rw [List.filter_cons, activeRows]
    by_cases hs : skipB it r = true
    · rw [if_pos hs]
      have hmf : dictMem r.pk adds = false := h2 r (List.mem_cons_self _ _) hs
      rw [if_neg (by rw [hmf]; exact Bool.false_ne_true)]
      refine ih (k + 1) hn.2 ?_
        (fun q hq hsq => h2 q (List.mem_cons_of_mem _ hq) hsq)
      intro p hp
      refine h1 p ?_
      rw [activeRows, if_pos hs]
      exact hp
    · have hsne : ¬(skipB it r = true) := hs
      rw [if_neg hsne]
      have hmt : dictMem r.pk adds = true := by
        refine h1 (k, r) ?_
        rw [activeRows, if_neg hsne]
        exact List.mem_cons_self _ _
      rw [if_pos hmt, List.map_cons]
      congr 1
      refine ih (k + 1) hn.2 ?_
        (fun q hq hsq => h2 q (List.mem_cons_of_mem _ hq) hsq)
      intro p hp
      refine h1 p ?_
      rw [activeRows, if_neg hsne]
      exact List.mem_cons_of_mem _ hp

theorem dictLookup_mapped (f : Nat × SrcRow → Digest × Option Digest)
    (ps : List (Nat × SrcRow)) (p : Nat × SrcRow) :
    (ps.map (fun q => q.2.pk)).Nodup → p ∈ ps →
      dictLookup (ps.map (fun q => (q.2.pk, f q))) p.2.pk = some (f p) := by
  induction ps with
  | nil => intro _ h; cases h
  | cons q rest ih =>
    intro hn hp
    rw [List.map_cons, List.nodup_cons] at hn
    rw [List.map_cons]
    unfold dictLookup
    rcases List.mem_cons.mp hp with h1 | h1
    · subst h1
      rw [List.find?_cons_of_pos _ (by simp)]
      rfl
    · have hne : ¬((q.2.pk, f q).1 = p.2.pk) := by
        intro he
        have he2 : q.2.pk = p.2.pk := he
        refine hn.1 ?_
        rw [he2]
        exact List.mem_map.mpr ⟨p, h1, rfl⟩
      rw [List.find?_cons_of_neg _ (by simpa using hne)]
      have := ih hn.2 h1
      unfold dictLookup at this
      exact this

/-- The add-phase loop over a run of non-skipped records whose digest pairs
are served by the change set appends the canonical hash-index rows, assigning
consecutive oids. -/
theorem addLoop_canonical (c : Crate) (ch : Changes) (w : World)
    (t : List HashRow) (ps : List (Nat × SrcRow)) (ht : w.hashTable = some t)
    (hlk : ∀ p ∈ ps, addRowDigests ch p.2.pk =
      Except.ok (attDg p.1 p.2, geomDg c.isTable p.1 p.2))
    (hns : ∀ p ∈ ps, skipB c.isTable p.2 = false) :
    ∃ w2, addLoop c ch w (ps.map (fun p => p.2)) = Except.ok w2 ∧
      w2.hashTable = some (t ++ canonHashRows c.isTable w.nextOid ps) ∧
      w2.destFields = w.destFields ∧ w2.destExists = w.destExists ∧
      w2.destWorkspaceExists = w.destWorkspaceExists ∧
      w2.warnings = w.warnings := by
  induction ps generalizing w t with
  | nil =>
    refine ⟨w, ?_, ?_, rfl, rfl, rfl, rfl⟩
    · rw [List.map_nil, addLoop]
    · rw [canonHashRows, List.append_nil, ht]
  | cons p rest ih =>
    have hstep : addStep c ch w p.2 = Except.ok
        { w with
          destRows := w.destRows ++ [⟨w.nextOid, p.2.pk, p.2.attrs,
            if c.needsReproject then p.2.wkt.map c.projectWkt else p.2.wkt⟩]
          nextOid := w.nextOid + 1
          hashTable := some (t ++ [⟨toString w.nextOid, some (attDg p.1 p.2),
            geomDg c.isTable p.1 p.2⟩]) } := by
      unfold addStep
      rw [if_neg (show ¬((!c.isTable && p.2.wkt.isNone) = true) from by
        rw [show (!c.isTable && p.2.wkt.isNone) = skipB c.isTable p.2 from rfl,
          hns p (List.mem_cons_self _ _)]
        exact Bool.false_ne_true)]
      rw [hlk p (List.mem_cons_self _ _)]
      dsimp only
      rw [ht]
      rfl
    obtain ⟨w2, hw2, hT2, hF2, hE2, hW2, hWarn2⟩ :=
      ih { w with
            destRows := w.destRows ++ [⟨w.nextOid, p.2.pk, p.2.attrs,
              if c.needsReproject then p.2.wkt.map c.projectWkt else p.2.wkt⟩]
            nextOid := w.nextOid + 1
            hashTable := some (t ++ [⟨toString w.nextOid, some (attDg p.1 p.2),
              geomDg c.isTable p.1 p.2⟩]) }
        (t ++ [⟨toString w.nextOid, some (attDg p.1 p.2),
          geomDg c.isTable p.1 p.2⟩])
        rfl
        (fun q hq => hlk q (List.mem_cons_of_mem _ hq))
        (fun q hq => hns q (List.mem_cons_of_mem _ hq))
    refine ⟨w2, ?_, ?_, hF2, hE2, hW2, hWarn2⟩
    · rw [List.map_cons, addLoop, hstep]
      exact hw2
    · rw [hT2]
      dsimp only
      rw [canonHashRows, List.append_assoc]
      rfl

/-- Starting from a canonical hash-index table for the current source, a run
of `update` reports NO_CHANGES and leaves the destination and the table
untouched. -/
theorem update_steady (c : Crate) (v : ValidationResult) (W : World) (m : Nat)
    (hd : W.destExists = true)
    (hT : W.hashTable = some (canonHashRows c.isTable m
      (activeRows c.isTable 0 c.sourceRows)))
    (hval : runValidation v c W = Except.ok true)
    (hnodup : (c.sourceRows.map (fun r => r.pk)).Nodup) :
    (update c v W).1 = (CrateStatus.NO_CHANGES, none) ∧
      (update c v W).2.hashTable = W.hashTable ∧
      (update c v W).2.destRows = W.destRows ∧
      (update c v W).2.destFields = W.destFields ∧
      (update c v W).2.destExists = W.destExists := by
  have posNodup := activeRows_pos_nodup c.isTable 0 c.sourceRows
  have hlookups : getHashLookups (canonHashRows c.isTable m
      (activeRows c.isTable 0 c.sourceRows)) =
      (canonAtt m (activeRows c.isTable 0 c.sourceRows),
        canonGeom c.isTable m (activeRows c.isTable 0 c.sourceRows)) := by
    rw [getHashLookups_eq _
      (by rw [attEntries_canonHashRows]; exact canonAtt_keys_nodup m _ posNodup)
      (by rw [geomEntries_canonHashRows]
          exact canonGeom_keys_nodup c.isTable m _ posNodup)]
    rw [attEntries_canonHashRows, geomEntries_canonHashRows]
  have hmatch : ∀ p ∈ activeRows c.isTable 0 c.sourceRows,
      matchB c.isTable (canonAtt m (activeRows c.isTable 0 c.sourceRows))
        (canonGeom c.isTable m (activeRows c.isTable 0 c.sourceRows))
        p.1 p.2 = true := by
    intro p hp
    unfold matchB
    rw [canonAtt_mem m _ p hp]
    cases hg : geomDg c.isTable p.1 p.2 with
    | none => rfl
    | some g =>
      dsimp only
      rw [canonGeom_mem c.isTable m _ p g hp hg]
      rfl
  have hclass := classifyRows_all_matched c.isTable
    (canonAtt m (activeRows c.isTable 0 c.sourceRows))
    (canonGeom c.isTable m (activeRows c.isTable 0 c.sourceRows))
    0 c.sourceRows hmatch
  have hspec := hashLoop_spec c.isTable c.needsReproject c.sourcePrimaryKey
    (canonAtt m (activeRows c.isTable 0 c.sourceRows))
    (canonGeom c.isTable m (activeRows c.isTable 0 c.sourceRows))
    c.sourceRows 0 [] [] [] [] [] [] 0
    (by intro d hd2; cases hd2) (by intro d hd2; cases hd2) hnodup
    (by intro r hr p hp; cases hp) (by intro r hr p hp; cases hp)
  rw [hclass] at hspec
  dsimp only at hspec
  rw [dropKeys_nil, dropKeys_nil] at hspec
  simp only [List.nil_append, List.map_nil, List.length_nil, Nat.zero_add,
    ite_self] at hspec
  have hattnil : dropKeys (canonAtt m (activeRows c.isTable 0 c.sourceRows))
      ((activeRows c.isTable 0 c.sourceRows).map (fun p => attDg p.1 p.2)) =
      [] := by
    refine dropKeys_all _ _ ?_
    intro q hq
    rcases canonAtt_key_of_mem m _ q hq with ⟨p, hp, he⟩
    rw [he]
    exact List.mem_map.mpr ⟨p, hp, rfl⟩
  have hgeomnil : dropKeys
      (canonGeom c.isTable m (activeRows c.isTable 0 c.sourceRows))
      ((activeRows c.isTable 0 c.sourceRows).filterMap
        (fun p => geomDg c.isTable p.1 p.2)) = [] := by
    refine dropKeys_all _ _ ?_
    intro q hq
    rcases canonGeom_key_of_mem c.isTable m _ q hq with ⟨p, hp, he⟩
    exact List.mem_filterMap.mpr ⟨p, hp, he⟩
  rw [hattnil, hgeomnil] at hspec
  have hpost : postCreation c W = Except.ok (CrateStatus.NO_CHANGES, W) := by
    unfold postCreation
    rw [hd]
    rfl
  have hchanges : (hashRun c W).1.deletes = [] ∧ (hashRun c W).1.adds = [] ∧
      (hashRun c W).2.hashTable = W.hashTable ∧
      (hashRun c W).2.destRows = W.destRows ∧
      (hashRun c W).2.destFields = W.destFields ∧
      (hashRun c W).2.destExists = W.destExists := by
    unfold hashRun
    simp only [hT, Option.isNone_some, Bool.false_eq_true, if_false,
      Option.getD_some]
    rw [hlookups]
    dsimp only
    rw [hspec]
    refine ⟨?_, ?_, ?_, ?_, ?_, ?_⟩ <;> first | rfl | trivial | exact hT
  have happly : applyChanges c CrateStatus.NO_CHANGES (hashRun c W).1
      (hashRun c W).2 = Except.ok ((CrateStatus.NO_CHANGES, none),
        (hashRun c W).2) := by
    unfold applyChanges
    rw [hchanges.1, hchanges.2.1]
    rfl
  have hupd : update c v W = ((CrateStatus.NO_CHANGES, none),
      (hashRun c W).2) := by
    unfold update updateBody
    rw [hpost]
    dsimp only
    rw [hval]
    dsimp only
    rw [happly]
  rw [hupd]
  exact ⟨rfl, hchanges.2.2.1, hchanges.2.2.2.1, hchanges.2.2.2.2.1,
    hchanges.2.2.2.2.2⟩

theorem dropKeys_nil_left (ks : List Digest) :
    dropKeys [] ks = [] := rfl

/-- A run of `update` on an existing destination with no hash-index table
rebuilds the canonical table for the current source. -/
theorem update_rebuild (c : Crate) (v : ValidationResult) (w : World)
    (hd : w.destExists = true) (hht : w.hashTable = none)
    (hnodup : (c.sourceRows.map (fun r => r.pk)).Nodup)
    (hval : runValidation v c w = Except.ok true) :
    (update c v w).2.destExists = true ∧
      (update c v w).2.destFields = w.destFields ∧
      (update c v w).2.hashTable = some (canonHashRows c.isTable w.nextOid
        (activeRows c.isTable 0 c.sourceRows)) := by
  have hpost : postCreation c w = Except.ok (CrateStatus.NO_CHANGES, w) := by
    unfold postCreation
    rw [hd]
    rfl
  have hspec0 := hashLoop_spec c.isTable c.needsReproject c.sourcePrimaryKey
    [] [] c.sourceRows 0 [] [] [] [] [] [] 0
    (by intro d hd2; cases hd2) (by intro d hd2; cases hd2) hnodup
    (by intro r hr p hp; cases hp) (by intro r hr p hp; cases hp)
  rw [classifyRows_empty_lookups] at hspec0
  dsimp only at hspec0
  simp only [dropKeys_nil_left, List.nil_append, List.map_nil,
    List.length_nil, Nat.zero_add, Nat.add_zero] at hspec0
  have hgl : getHashLookups ([] : List HashRow) = ([], []) := rfl
  have hrun : hashRun c w =
      (⟨(activeRows c.isTable 0 c.sourceRows).map
          (fun p => (p.2.pk, (attDg p.1 p.2, geomDg c.isTable p.1 p.2))),
        [], [],
        (activeRows c.isTable 0 c.sourceRows).length,
        if c.needsReproject then
          (if c.needsReproject then
            (activeRows c.isTable 0 c.sourceRows).map (fun p => p.2) else [])
          else c.sourceRows,
        c.needsReproject⟩,
       { w with
          hashTable := some []
          destRows := []
          warnings := w.warnings ++
            (skippedRows c.isTable 0 c.sourceRows).map
              (fun p => "Empty geometry found in " ++ c.sourcePrimaryKey ++
                ": " ++ p.2.pk) }) := by
    unfold hashRun
    simp only [hht, Option.isNone_none, eq_self_iff_true, if_true,
      Option.getD_some]
    rw [hgl]
    dsimp only
    rw [hspec0]
    rfl
  have hdel : (hashRun c w).1.deletes = [] := by rw [hrun]
  have hadds : (hashRun c w).1.adds =
      (activeRows c.isTable 0 c.sourceRows).map
        (fun p => (p.2.pk, (attDg p.1 p.2, geomDg c.isTable p.1 p.2))) := by
    rw [hrun]
  have hW1T : (hashRun c w).2.hashTable = some [] := by rw [hrun]
  have hW1E : (hashRun c w).2.destExists = w.destExists := by rw [hrun]
  have hW1F : (hashRun c w).2.destFields = w.destFields := by rw [hrun]
  have hW1O : (hashRun c w).2.nextOid = w.nextOid := by rw [hrun]
  by_cases hae : activeRows c.isTable 0 c.sourceRows = []
  · have happly : applyChanges c CrateStatus.NO_CHANGES (hashRun c w).1
        (hashRun c w).2 =
        Except.ok ((CrateStatus.NO_CHANGES, none), (hashRun c w).2) := by
      unfold applyChanges
      rw [hdel, hadds, hae, List.map_nil]
      rfl
    have hupd : update c v w =
        ((CrateStatus.NO_CHANGES, none), (hashRun c w).2) := by
      unfold update updateBody
      rw [hpost]
      dsimp only
      rw [hval]
      dsimp only
      rw [happly]
    rw [hupd]
    refine ⟨by rw [hW1E]; exact hd, hW1F, ?_⟩
    rw [hW1T, hae, canonHashRows]
  · have hkeys : (((activeRows c.isTable 0 c.sourceRows).map
        (fun p => (p.2.pk, (attDg p.1 p.2, geomDg c.isTable p.1 p.2)))).map
          (fun x => x.1)) =
        (activeRows c.isTable 0 c.sourceRows).map (fun p => p.2.pk) := by
      rw [List.map_map]
      rfl
    have hmemkeys : ∀ p ∈ activeRows c.isTable 0 c.sourceRows,
        dictMem p.2.pk ((activeRows c.isTable 0 c.sourceRows).map
          (fun p => (p.2.pk, (attDg p.1 p.2, geomDg c.isTable p.1 p.2)))) =
          true := by
      intro p hp
      refine dictMem_true_of_key _ _ ?_
      rw [hkeys]
      exact List.mem_map.mpr ⟨p, hp, rfl⟩
    have haddse : ((activeRows c.isTable 0 c.sourceRows).map
        (fun p => (p.2.pk, (attDg p.1 p.2, geomDg c.isTable p.1 p.2)))).isEmpty
        = false := by
      cases hA : activeRows c.isTable 0 c.sourceRows with
      | nil => exact absurd hA hae
      | cons a as => rfl
    have hrows : (hashRun c w).1.tableRows.filter
        (fun r => dictMem r.pk (hashRun c w).1.adds) =
        (activeRows c.isTable 0 c.sourceRows).map (fun p => p.2) := by
      rw [hadds, hrun]
      dsimp only
      by_cases hrp : c.needsReproject = true
      · rw [if_pos hrp, if_pos hrp]
        refine List.filter_eq_self.mpr ?_
        intro r hr
        rcases List.mem_map.mp hr with ⟨p, hp, hpr⟩
        rw [← hpr]
        exact hmemkeys p hp
      · rw [if_neg hrp]
        refine filter_adds c.isTable _ 0 c.sourceRows hnodup hmemkeys ?_
        intro r hr hskip
        refine dictMem_false_of_not_key _ _ ?_
        rw [hkeys]
        exact skipped_pk_not_active c.isTable 0 c.sourceRows r hnodup hr hskip
    have hlk : ∀ p ∈ activeRows c.isTable 0 c.sourceRows,
        addRowDigests (hashRun c w).1 p.2.pk =
          Except.ok (attDg p.1 p.2, geomDg c.isTable p.1 p.2) := by
      intro p hp
      unfold addRowDigests
      rw [hadds]
      rw [dictLookup_mapped
        (fun q => (attDg q.1 q.2, geomDg c.isTable q.1 q.2)) _ p
        (activeRows_pk_nodup c.isTable 0 c.sourceRows hnodup) hp]
    obtain ⟨w2, hw2, hT2, hF2, hE2, hW2, hWarn2⟩ :=
      addLoop_canonical c (hashRun c w).1 (hashRun c w).2 []
        (activeRows c.isTable 0 c.sourceRows) hW1T hlk
        (fun p hp => activeRows_not_skipped c.isTable 0 c.sourceRows p hp)
    have haddp : addPhase c (hashRun c w).1 (hashRun c w).2 = Except.ok w2 := by
      unfold addPhase
      rw [hrows]
      exact hw2
    have happly : applyChanges c CrateStatus.NO_CHANGES (hashRun c w).1
        (hashRun c w).2 =
        Except.ok ((bumpStatus CrateStatus.NO_CHANGES, none), w2) := by
      unfold applyChanges
      rw [hdel, hadds, haddse]
      rw [if_pos (show ([] : List String).isEmpty = true from rfl),
        if_neg (show ¬(false = true) from Bool.false_ne_true)]
      dsimp only
      rw [haddp]
    have hupd : update c v w =
        ((bumpStatus CrateStatus.NO_CHANGES, none), w2) := by
      unfold update updateBody
      rw [hpost]
      dsimp only
      rw [hval]
      dsimp only
      rw [happly]
    rw [hupd]
    refine ⟨by rw [hE2, hW1E]; exact hd, by rw [hF2, hW1F], ?_⟩
    rw [hT2, hW1O, List.nil_append]

/-- Validation reads the world only through the destination schema. -/
theorem runValidation_fields (v : ValidationResult) (c : Crate) (w w2 : World)
    (h : w2.destFields = w.destFields) :
    runValidation v c w2 = runValidation v c w := by
  cases v with
  | notImplemented =>
    unfold runValidation check_schema
    rw [h]
  | ok => rfl
  | invalid m => rfl

/-- C3 (amended): for a crate whose destination exists but whose per-crate
hash-index table does not yet exist, with pairwise-distinct source primary
keys and passing validation, the first `update` rebuilds the canonical hash
index and the second consecutive `update` with the unchanged source returns
NO_CHANGES, leaving the hash-index table and the destination rows exactly as
the first run left them.  (Without a constraint on the pre-existing table the
property fails, see the counterexample.) -/
theorem second_run_no_changes (c : Crate) (v : ValidationResult) (w : World)
    (hd : w.destExists = true) (hht : w.hashTable = none)
    (hnodup : (c.sourceRows.map (fun r => r.pk)).Nodup)
    (hval : runValidation v c w = Except.ok true) :
    (update c v (update c v w).2).1 = (CrateStatus.NO_CHANGES, none) ∧
      (update c v (update c v w).2).2.hashTable = (update c v w).2.hashTable ∧
      (update c v (update c v w).2).2.destRows = (update c v w).2.destRows := by
  obtain ⟨hE1, hF1, hT1⟩ := update_rebuild c v w hd hht hnodup hval
  have hval2 : runValidation v c (update c v w).2 = Except.ok true := by
    rw [runValidation_fields v c w (update c v w).2 hF1, hval]
  obtain ⟨h1, h2, h3, _, _⟩ :=
    update_steady c v (update c v w).2 w.nextOid hE1 hT1 hval2 hnodup
  exact ⟨h1, h2, h3⟩

/-- A world whose pre-existing hash-index table cross-matches the single
source record of `crateGeo`: the attribute digest `("a", 1)` and the geometry
digest `("w", 1)` of stream position 0 are stored on two different
identifiers, each paired with a digest that no source record produces. -/
def wcx : World :=
  ⟨true, true, [], [⟨"A", "String", 10⟩],
    some [⟨"7", some ("a", 1), some ("z", 9)⟩,
      ⟨"8", some ("q", 9), some ("w", 1)⟩],
    1, []⟩

/-- C3 (counterexample to the claim as stated): the destination exists and
the source is unchanged between two consecutive calls, yet the second call
returns UPDATED, not NO_CHANGES, and the hash-index table differs after the
first and after the second run. -/
theorem second_run_can_return_updated :
    wcx.destExists = true ∧
      (update crateGeo ValidationResult.ok
        (update crateGeo ValidationResult.ok wcx).2).1.1 =
        CrateStatus.UPDATED ∧
      (update crateGeo ValidationResult.ok
        (update crateGeo ValidationResult.ok wcx).2).2.hashTable ≠
        (update crateGeo ValidationResult.ok wcx).2.hashTable :=
  ⟨rfl, rfl, by decide⟩

/-- Witness for the amended C3 at a concrete crate and world. -/
theorem second_run_no_changes_witness :
    (worldNoTable.destExists = true ∧ worldNoTable.hashTable = none ∧
      (crateGeo.sourceRows.map (fun r => r.pk)).Nodup ∧
      runValidation ValidationResult.ok crateGeo worldNoTable =
        Except.ok true) ∧
    ((update crateGeo ValidationResult.ok
        (update crateGeo ValidationResult.ok worldNoTable).2).1 =
      (CrateStatus.NO_CHANGES, none) ∧
      (update crateGeo ValidationResult.ok
        (update crateGeo ValidationResult.ok worldNoTable).2).2.hashTable =
        (update crateGeo ValidationResult.ok worldNoTable).2.hashTable ∧
      (update crateGeo ValidationResult.ok
        (update crateGeo ValidationResult.ok worldNoTable).2).2.destRows =
        (update crateGeo ValidationResult.ok worldNoTable).2.destRows) :=
  ⟨⟨rfl, rfl, by decide, rfl⟩,
    second_run_no_changes crateGeo ValidationResult.ok worldNoTable rfl rfl
      (by decide) rfl⟩

end Forklift
